import Mathlib

/-!
Shallow embedding of the delta-consolidation core of `src/process.py`
(the mitmproxy SSE log viewer).  JSON values are modelled by `JVal`;
numeric literals are modelled as integers (the claims under study never
involve fractional numbers).  Python exceptions that the modelled code can
raise are made explicit through `Except PyErr`.
-/

/-- JSON values as produced by `json.loads`.  Objects keep their fields in
insertion order; the parser overwrites duplicate keys in place, matching
Python dict construction. -/
inductive JVal : Type where
  | null : JVal
  | bool : Bool → JVal
  | num : Int → JVal
  | str : String → JVal
  | arr : List JVal → JVal
  | obj : List (String × JVal) → JVal
deriving Repr

/-- Python whitespace characters stripped by `str.strip()` (ASCII subset). -/
def isPyWs (c : Char) : Bool :=
  c = ' ' || c = '\t' || c = '\n' || c = '\r' || c = '\x0b' || c = '\x0c'

/-- Drop leading whitespace. -/
def stripLead (cs : List Char) : List Char := cs.dropWhile isPyWs

/-- Drop trailing whitespace. -/
def stripTrail (cs : List Char) : List Char :=
  (cs.reverse.dropWhile isPyWs).reverse

/-- Model of Python `str.strip()`. -/
def pystrip (s : String) : String := ⟨stripTrail (stripLead s.data)⟩

/-- Helper for `splitlines`: accumulate the current line (reversed) while
scanning; line breaks are `\n`, `\r\n` and `\r`. -/
def splitlinesAux : List Char → List Char → List String
  | [], cur => if cur.isEmpty then [] else [⟨cur.reverse⟩]
  | '\r' :: '\n' :: rest, cur => (⟨cur.reverse⟩ : String) :: splitlinesAux rest []
  | '\n' :: rest, cur => (⟨cur.reverse⟩ : String) :: splitlinesAux rest []
  | '\r' :: rest, cur => (⟨cur.reverse⟩ : String) :: splitlinesAux rest []
  | c :: rest, cur => splitlinesAux rest (c :: cur)

/-- Model of Python `str.splitlines()` (restricted to the `\n`, `\r`,
`\r\n` separators that occur in the captured logs). -/
def splitlines (s : String) : List String := splitlinesAux s.data []

/-- Model of Python `str.startswith`. -/
def pyStartsWith (s p : String) : Bool := p.data.isPrefixOf s.data

/-- Model of Python slicing `s[n:]` (by characters). -/
def pyDrop (s : String) (n : Nat) : String := ⟨s.data.drop n⟩

/-- JSON inter-token whitespace (RFC 8259, as accepted by `json.loads`). -/
def isJsonWs (c : Char) : Bool :=
  c = ' ' || c = '\t' || c = '\n' || c = '\r'

def skipWs (cs : List Char) : List Char := cs.dropWhile isJsonWs

def hexVal (c : Char) : Option Nat :=
  if '0' ≤ c && c ≤ '9' then some (c.toNat - 48)
  else if 'a' ≤ c && c ≤ 'f' then some (c.toNat - 87)
  else if 'A' ≤ c && c ≤ 'F' then some (c.toNat - 55)
  else none

/-- Parse the body of a JSON string literal (after the opening quote),
returning the decoded string and the remaining characters.  Surrogate
escapes are rejected (Python would accept lone surrogates; the logs under
study contain none). -/
def jstringAux : List Char → List Char → Option (String × List Char)
  | _, [] => none
  | acc, '\"' :: rest => some (⟨acc.reverse⟩, rest)
  | acc, '\\' :: e :: rest =>
    match e with
    | '\"' => jstringAux ('\"' :: acc) rest
    | '\\' => jstringAux ('\\' :: acc) rest
    | '/' => jstringAux ('/' :: acc) rest
    | 'b' => jstringAux ('\x08' :: acc) rest
    | 'f' => jstringAux ('\x0c' :: acc) rest
    | 'n' => jstringAux ('\n' :: acc) rest
    | 'r' => jstringAux ('\r' :: acc) rest
    | 't' => jstringAux ('\t' :: acc) rest
    | 'u' =>
      match rest with
      | a :: b :: c :: d :: rest2 =>
        match hexVal a, hexVal b, hexVal c, hexVal d with
        | some x, some y, some z, some w =>
          let n := ((x * 16 + y) * 16 + z) * 16 + w
          if n < 0xd800 then
            jstringAux (Char.ofNat n :: acc) rest2
          else none
        | _, _, _, _ => none
      | _ => none
    | _ => none
  | acc, c :: rest =>
    if c.toNat < 32 then none else jstringAux (c :: acc) rest

/-- Consume a run of decimal digits, extending the accumulator. -/
def takeDigits : List Char → Nat → Nat × List Char
  | c :: rest, acc =>
    if c.isDigit then takeDigits rest (acc * 10 + (c.toNat - 48))
    else (acc, c :: rest)
  | [], acc => (acc, [])

/-- Parse a JSON number as an integer.  Leading zeros are rejected as in
strict JSON; a fractional part or exponent makes the parse fail (floats
are outside this model). -/
def jnumber (cs : List Char) : Option (Int × List Char) :=
  let p := fun (neg : Bool) (cs1 : List Char) =>
    match cs1 with
    | '0' :: rest =>
      if (rest.head?.map (fun c => c.isDigit || c = '.' || c = 'e' || c = 'E')).getD false
      then none
      else some ((0 : Int), rest)
    | c :: rest =>
      if c.isDigit then
        let r := takeDigits rest (c.toNat - 48)
        if (r.2.head?.map (fun c2 => c2 = '.' || c2 = 'e' || c2 = 'E')).getD false
        then none
        else some (if neg then -(r.1 : Int) else (r.1 : Int), r.2)
      else none
    | [] => none
  match cs with
  | '-' :: rest => p true rest
  | _ => p false cs

/-- Insert a key into an association list with Python dict semantics:
overwrite in place on duplicate, append otherwise. -/
def objInsert : List (String × JVal) → String → JVal → List (String × JVal)
  | [], k, v => [(k, v)]
  | kv :: rest, k, v =>
    if kv.1 = k then (k, v) :: rest else kv :: objInsert rest k v

mutual

/-- Parse one JSON value (fuel-indexed). -/
def jval : Nat → List Char → Option (JVal × List Char)
  | 0, _ => none
  | fuel + 1, cs =>
    match skipWs cs with
    | [] => none
    | c :: rest =>
      if c = 'n' then
        match rest with
        | 'u' :: 'l' :: 'l' :: r => some (.null, r)
        | _ => none
      else if c = 't' then
        match rest with
        | 'r' :: 'u' :: 'e' :: r => some (.bool true, r)
        | _ => none
      else if c = 'f' then
        match rest with
        | 'a' :: 'l' :: 's' :: 'e' :: r => some (.bool false, r)
        | _ => none
      else if c = '\"' then
        (jstringAux [] rest).map (fun sr => (.str sr.1, sr.2))
      else if c = '[' then jarr fuel (skipWs rest)
      else if c = '\x7b' then jobj fuel (skipWs rest)
      else (jnumber (c :: rest)).map (fun nr => (.num nr.1, nr.2))

/-- Parse the inside of a JSON array, right after `[` and whitespace. -/
def jarr : Nat → List Char → Option (JVal × List Char)
  | 0, _ => none
  | fuel + 1, cs =>
    match cs with
    | ']' :: rest => some (.arr [], rest)
    | _ => jarrItems fuel [] cs

/-- Parse the comma-separated items of a nonempty JSON array. -/
def jarrItems : Nat → List JVal → List Char → Option (JVal × List Char)
  | 0, _, _ => none
  | fuel + 1, acc, cs =>
    match jval fuel cs with
    | none => none
    | some vr =>
      match skipWs vr.2 with
      | ']' :: rest => some (.arr (acc ++ [vr.1]), rest)
      | ',' :: rest => jarrItems fuel (acc ++ [vr.1]) rest
      | _ => none

/-- Parse the inside of a JSON object, right after the opening brace and
whitespace. -/
def jobj : Nat → List Char → Option (JVal × List Char)
  | 0, _ => none
  | fuel + 1, cs =>
    match cs with
    | '\x7d' :: rest => some (.obj [], rest)
    | _ => jobjItems fuel [] cs

/-- Parse the comma-separated members of a nonempty JSON object. -/
def jobjItems : Nat → List (String × JVal) → List Char → Option (JVal × List Char)
  | 0, _, _ => none
  | fuel + 1, acc, cs =>
    match skipWs cs with
    | '\"' :: rest =>
      match jstringAux [] rest with
      | none => none
      | some kr =>
        match skipWs kr.2 with
        | ':' :: rest2 =>
          match jval fuel rest2 with
          | none => none
          | some vr =>
            match skipWs vr.2 with
            | '\x7d' :: rest3 => some (.obj (objInsert acc kr.1 vr.1), rest3)
            | ',' :: rest3 => jobjItems fuel (objInsert acc kr.1 vr.1) rest3
            | _ => none
        | _ => none
    | _ => none

end

/-- Look a key up in an object field list (first match; the parser keeps
keys unique). -/
def objFind : List (String × JVal) → String → Option JVal
  | [], _ => none
  | kv :: rest, k => if kv.1 = k then some kv.2 else objFind rest k

/-- Model of Python `dict.get(k, d)`. -/
def objGetD (fs : List (String × JVal)) (k : String) (d : JVal) : JVal :=
  (objFind fs k).getD d

/-- Model of Python `json.loads` on a string: parse one JSON value and
require that only whitespace remains. -/
def pyloads (s : String) : Option JVal :=
  match jval (2 * s.data.length + 2) s.data with
  | some vr => if (skipWs vr.2).isEmpty then some vr.1 else none
  | none => none

example : pyloads "42" = some (.num 42) := rfl
example : pyloads "\x7b\"a\": 1, \"b\": [true, null]\x7d" =
    some (.obj [("a", .num 1), ("b", .arr [.bool true, .null])]) := rfl
example : pyloads "\x7b\x7d" = some (.obj []) := rfl
example : pyloads "-17 " = some (.num (-17)) := rfl
example : pyloads "\"he\\nllo\"" = some (.str "he\nllo") := rfl
example : pyloads "hello" = none := rfl
example : pyloads "1.5" = none := rfl
example : pystrip "  data: x\t" = "data: x" := rfl
example : splitlines "a\nb\r\nc\n" = ["a", "b", "c"] := rfl

/-! ## Model of `src/process.py` -/

/-- Python exceptions that the modelled code can raise. -/
inductive PyErr : Type where
  | attributeError : PyErr
  | typeError : PyErr
deriving DecidableEq, Repr

/-- Model of `parse_delta_line` (process.py lines 33-51): strip the line,
require the literal `data: ` (with a space), and `json.loads` the rest. -/
def parse_delta_line (line : String) : Option JVal :=
  if pyStartsWith (pystrip line) "data: " then pyloads (pyDrop (pystrip line) 6)
  else none

/-- The SSE line classifier used inside `extract_sse_to_json` (process.py
lines 166-175): strip the line, require the prefix `data:` (no space
needed), and `json.loads` the stripped remainder. -/
def dataOfLine (line : String) : Option JVal :=
  if pyStartsWith (pystrip line) "data:" then
    pyloads (pystrip (pyDrop (pystrip line) 5))
  else none

/-- The three accumulator lists of `extract_sse_to_json`
(`thinking_parts`, `text_parts`, `tool_uses`). -/
structure SSEAcc : Type where
  thinkingParts : List JVal
  textParts : List JVal
  toolUses : List JVal
deriving Repr

/-- The loop body of `extract_sse_to_json` (process.py lines 178-191)
applied to one successfully parsed `data:` JSON body.  Attribute access
`.get` on a non-dict raises `AttributeError`, modelled by `.error`; the
inner `json.loads` of `partial_json` sits in a `try/except` so a
non-string or unparseable `partial_json` is dropped silently. -/
def sseStep (acc : SSEAcc) (data : JVal) : Except PyErr SSEAcc :=
  match data with
  | .obj fs =>
    match objGetD fs "type" .null with
    | .str t =>
      if t = "content_block_delta" then
        match objGetD fs "delta" (.obj []) with
        | .obj ds =>
          match objGetD ds "type" .null with
          | .str dt =>
            let a1 :=
              if dt = "thinking_delta" then
                ⟨acc.thinkingParts ++ [objGetD ds "thinking" (.str "")],
                  acc.textParts, acc.toolUses⟩
              else acc
            let a2 : SSEAcc :=
              if dt = "text_delta" then
                ⟨a1.thinkingParts, a1.textParts ++ [objGetD ds "text" (.str "")],
                  a1.toolUses⟩
              else a1
            let a3 : SSEAcc :=
              if dt = "input_json_delta" then
                match objGetD ds "partial_json" (.str "\x7b\x7d") with
                | .str pj =>
                  match pyloads pj with
                  | some tj => ⟨a2.thinkingParts, a2.textParts, a2.toolUses ++ [tj]⟩
                  | none => a2
                | _ => a2
              else a2
            .ok a3
          | _ => .ok acc
        | _ => .error .attributeError
      else .ok acc
    | _ => .ok acc
  | _ => .error .attributeError

/-- One iteration of the SSE loop over a raw line: lines that do not
classify as a `data:` frame are skipped. -/
def sseLineStep (acc : SSEAcc) (line : String) : Except PyErr SSEAcc :=
  match dataOfLine line with
  | none => .ok acc
  | some d => sseStep acc d

/-- Model of Python `"".join(parts)`: raises `TypeError` when any part is
not a string. -/
def pyJoin : List JVal → Except PyErr String
  | [] => .ok ""
  | .str s :: rest => (pyJoin rest).map (fun r => s ++ r)
  | _ :: _ => .error .typeError

/-- The request-body test applied to one line by
`extract_messages_from_text` (process.py lines 144-156): a stripped line
starting with an opening brace that parses to an object containing both
`messages` and `model` yields its `messages` value. -/
def reqOf (line : String) : Option JVal :=
  if pyStartsWith (pystrip line) "\x7b" then
    match pyloads (pystrip line) with
    | some (.obj fs) =>
      if (objFind fs "messages").isSome && (objFind fs "model").isSome then
        some (objGetD fs "messages" .null)
      else none
    | _ => none
  else none

/-- The scanning loop of `extract_messages_from_text`: return the
`messages` value of the first matching line, `[]` if none matches. -/
def emftLines : List String → JVal
  | [] => .arr []
  | l :: rest =>
    match reqOf l with
    | some v => v
    | none => emftLines rest

/-- Model of `extract_messages_from_text` (process.py lines 140-158). -/
def extract_messages_from_text (content : String) : JVal :=
  emftLines (splitlines content)

/-- The output record of `extract_sse_to_json`. -/
structure SSERec : Type where
  message : JVal
  thinking : String
  text : String
  tool_use : List JVal
deriving Repr

/-- The body of `extract_sse_to_json` after the input text has been split
into lines (process.py lines 130-196, file I/O omitted).  The join of
`thinking_parts` is evaluated before the join of `text_parts`, as in the
source. -/
def extractFromLines (lines : List String) : Except PyErr SSERec :=
  match List.foldlM sseLineStep ⟨[], [], []⟩ lines with
  | .error e => .error e
  | .ok acc =>
    match pyJoin acc.thinkingParts with
    | .error e => .error e
    | .ok thinking =>
      match pyJoin acc.textParts with
      | .error e => .error e
      | .ok text => .ok ⟨emftLines lines, thinking, text, acc.toolUses⟩

/-- Model of `extract_sse_to_json` (process.py lines 116-205) as a pure
function from the file content to the produced record. -/
def extract_sse_to_json (content : String) : Except PyErr SSERec :=
  extractFromLines (splitlines content)

example :
    extract_sse_to_json
      "data: \x7b\"type\": \"content_block_delta\", \"index\": 0, \"delta\": \x7b\"type\": \"text_delta\", \"text\": \"He\"\x7d\x7d\ndata: \x7b\"type\": \"content_block_delta\", \"index\": 0, \"delta\": \x7b\"type\": \"text_delta\", \"text\": \"llo\"\x7d\x7d" =
    .ok ⟨.arr [], "", "Hello", []⟩ := rfl

/-! ### Model of `consolidate_deltas` (process.py lines 54-109) -/

/-- One output entry of `consolidate_deltas`: the Python dicts
`\x7b"type": "text", "content": c\x7d`, `\x7b"type": "thinking",
"content": c\x7d` and `\x7b"type": "tool_use", "delta": d\x7d`. -/
inductive CEntry : Type where
  | text : String → CEntry
  | thinking : String → CEntry
  | toolUse : JVal → CEntry
deriving Repr

/-- Python hashability of a JSON value: lists and dicts are unhashable. -/
def pyHashable : JVal → Bool
  | .arr _ => false
  | .obj _ => false
  | _ => true

/-- Python `==` on hashable (scalar) JSON values; note `True == 1` because
Python bools are ints. -/
def pyEqScalar : JVal → JVal → Bool
  | .null, .null => true
  | .bool a, .bool b => a = b
  | .bool a, .num m => (if a then (1 : Int) else 0) = m
  | .num n, .bool b => n = (if b then (1 : Int) else 0)
  | .num n, .num m => n = m
  | .str s, .str t => s = t
  | _, _ => false

/-- Lexicographic code-point comparison of character lists, as Python
compares strings. -/
def charListLt : List Char → List Char → Bool
  | [], [] => false
  | [], _ :: _ => true
  | _ :: _, [] => false
  | a :: as, b :: bs =>
    if a.toNat < b.toNat then true
    else if b.toNat < a.toNat then false
    else charListLt as bs

/-- Python `<` on strings. -/
def pyStrLt (s t : String) : Bool := charListLt s.data t.data

/-- Python `<` on scalar JSON values; mixed string/number or any `None`
comparison raises `TypeError`. -/
def pyLtScalar : JVal → JVal → Except PyErr Bool
  | .num n, .num m => .ok (decide (n < m))
  | .num n, .bool b => .ok (decide (n < if b then 1 else 0))
  | .bool a, .num m => .ok (decide ((if a then (1 : Int) else 0) < m))
  | .bool a, .bool b => .ok (decide ((if a then (1 : Int) else 0) < if b then 1 else 0))
  | .str s, .str t => .ok (pyStrLt s t)
  | _, _ => .error .typeError

/-- Python `<` on the `(delta_type, index)` key tuples. -/
def keyLt (a b : JVal × JVal) : Except PyErr Bool :=
  if pyEqScalar a.1 b.1 then
    if pyEqScalar a.2 b.2 then .ok false else pyLtScalar a.2 b.2
  else pyLtScalar a.1 b.1

/-- Python `==` on key tuples. -/
def keyEq (a b : JVal × JVal) : Bool :=
  pyEqScalar a.1 b.1 && pyEqScalar a.2 b.2

/-- The grouping state: an insertion-ordered association list from key
tuples to the deltas collected so far, as a Python dict of lists. -/
abbrev Groups : Type := List ((JVal × JVal) × List JVal)

/-- Append a delta to its group, creating the group at the end on first
sight (Python dict insertion order). -/
def groupAdd (gs : Groups) (k : JVal × JVal) (d : JVal) : Groups :=
  match gs with
  | [] => [(k, [d])]
  | g :: rest => if keyEq g.1 k then (g.1, g.2 ++ [d]) :: rest else g :: groupAdd rest k d

/-- The grouping loop of `consolidate_deltas` (lines 66-77): `.get` on a
non-dict entry or a non-dict delta raises `AttributeError`; hashing an
unhashable key component raises `TypeError`; entries whose delta type is
`None` are skipped before the key is formed. -/
def buildGroups : List JVal → Groups → Except PyErr Groups
  | [], gs => .ok gs
  | e :: rest, gs =>
    match e with
    | .obj fs =>
      match objGetD fs "delta" (.obj []) with
      | .obj ds =>
        match objGetD ds "type" .null with
        | .null => buildGroups rest gs
        | dt =>
          let idx := objGetD fs "index" (.num 0)
          if pyHashable dt && pyHashable idx then
            buildGroups rest (groupAdd gs (dt, idx) (.obj ds))
          else .error .typeError
      | _ => .error .attributeError
    | _ => .error .attributeError

/-- Monadic descending insertion into a key-sorted list (largest key
first), propagating comparison errors. -/
def insertDescM (x : (JVal × JVal) × List JVal) :
    Groups → Except PyErr Groups
  | [] => .ok [x]
  | y :: ys =>
    match keyLt y.1 x.1 with
    | .error e => .error e
    | .ok true => .ok (x :: y :: ys)
    | .ok false =>
      match insertDescM x ys with
      | .error e => .error e
      | .ok t => .ok (y :: t)

/-- Model of `sorted(groups.items(), reverse=True)`.  Python leaves the
set of comparisons performed by its sort unspecified, so this model
conservatively performs a full insertion sort; on inputs whose keys are
pairwise comparable (the only inputs any theorem below relies on) the two
agree. -/
def sortDescM : Groups → Except PyErr Groups
  | [] => .ok []
  | x :: xs =>
    match sortDescM xs with
    | .error e => .error e
    | .ok s => insertDescM x s

/-- Concatenate a string field over the deltas of one group (the
`content += delta.get(f, "")` loop); a non-string value raises
`TypeError`. -/
def concatField : List JVal → String → Except PyErr String
  | [], _ => .ok ""
  | d :: rest, f =>
    match d with
    | .obj ds =>
      match objGetD ds f (.str "") with
      | .str s => (concatField rest f).map (fun r => s ++ r)
      | _ => .error .typeError
    | _ => .error .attributeError

/-- The per-group emission of `consolidate_deltas` (lines 82-107):
`text_delta` and `thinking_delta` groups are concatenated into one entry,
`input_json_delta` groups emit one `tool_use` entry per delta, any other
key contributes nothing. -/
def emitGroup (k : JVal × JVal) (ds : List JVal) : Except PyErr (List CEntry) :=
  match k.1 with
  | .str t =>
    if t = "text_delta" then (concatField ds "text").map (fun c => [.text c])
    else if t = "thinking_delta" then
      (concatField ds "thinking").map (fun c => [.thinking c])
    else if t = "input_json_delta" then .ok (ds.map .toolUse)
    else .ok []
  | _ => .ok []

/-- Emit all groups in order. -/
def emitAll : Groups → Except PyErr (List CEntry)
  | [] => .ok []
  | g :: rest =>
    match emitGroup g.1 g.2 with
    | .error e => .error e
    | .ok es =>
      match emitAll rest with
      | .error e => .error e
      | .ok r => .ok (es ++ r)

/-- Model of `consolidate_deltas` (process.py lines 54-109). -/
def consolidate_deltas (entries : List JVal) : Except PyErr (List CEntry) :=
  match buildGroups entries [] with
  | .error e => .error e
  | .ok gs =>
    match sortDescM gs with
    | .error e => .error e
    | .ok sorted => emitAll sorted

example :
    consolidate_deltas
      [.obj [("index", .num 0),
             ("delta", .obj [("type", .str "text_delta"), ("text", .str "He")])],
       .obj [("index", .num 0),
             ("delta", .obj [("type", .str "text_delta"), ("text", .str "llo")])],
       .obj [("index", .num 0),
             ("delta", .obj [("type", .str "thinking_delta"), ("thinking", .str "hm")])]] =
    .ok [.thinking "hm", .text "Hello"] := rfl

/-! ## Frame constructors and general lemmas -/

/-- A `content_block_delta` event carrying a `text_delta` fragment. -/
def textFrame (i : Int) (t : String) : JVal :=
  .obj [("type", .str "content_block_delta"), ("index", .num i),
        ("delta", .obj [("type", .str "text_delta"), ("text", .str t)])]

/-- A `content_block_delta` event carrying a `thinking_delta` fragment. -/
def thinkFrame (i : Int) (t : String) : JVal :=
  .obj [("type", .str "content_block_delta"), ("index", .num i),
        ("delta", .obj [("type", .str "thinking_delta"), ("thinking", .str t)])]

/-- The delta object of an `input_json_delta` fragment. -/
def jsonDelta (p : String) : JVal :=
  .obj [("type", .str "input_json_delta"), ("partial_json", .str p)]

/-- A `content_block_delta` event carrying an `input_json_delta`
fragment. -/
def jsonFrame (i : Int) (p : String) : JVal :=
  .obj [("type", .str "content_block_delta"), ("index", .num i),
        ("delta", jsonDelta p)]

/-- `"".join` over a list of strings, in list order. -/
def strJoin (ts : List String) : String := ts.foldr (fun a b => a ++ b) ""

lemma sseStep_textFrame (acc : SSEAcc) (i : Int) (t : String) :
    sseStep acc (textFrame i t) =
      .ok ⟨acc.thinkingParts, acc.textParts ++ [.str t], acc.toolUses⟩ := rfl

lemma sseStep_thinkFrame (acc : SSEAcc) (i : Int) (t : String) :
    sseStep acc (thinkFrame i t) =
      .ok ⟨acc.thinkingParts ++ [.str t], acc.textParts, acc.toolUses⟩ := rfl

lemma sseStep_jsonFrame (acc : SSEAcc) (i : Int) (p : String) :
    sseStep acc (jsonFrame i p) =
      .ok ⟨acc.thinkingParts, acc.textParts, acc.toolUses ++ (pyloads p).toList⟩ := by
  have h : sseStep acc (jsonFrame i p) =
      .ok (match pyloads p with
           | some tj => ⟨acc.thinkingParts, acc.textParts, acc.toolUses ++ [tj]⟩
           | none => acc) := rfl
  rw [h]
  cases hp : pyloads p with
  | none => simp
  | some tj => simp

lemma pyJoin_map_str (ts : List String) : pyJoin (ts.map .str) = .ok (strJoin ts) := by
  induction ts with
  | nil => rfl
  | cons t rest ih => simp [pyJoin, strJoin, ih]; rfl

lemma pyStartsWith_data_not_brace (s : String) (h : pyStartsWith s "data:" = true) :
    pyStartsWith s "\x7b" = false := by
  have hd : ("data:").data = ['d', 'a', 't', 'a', ':'] := rfl
  have hb : ("\x7b").data = ['\x7b'] := rfl
  unfold pyStartsWith at h ⊢
  rw [hd] at h
  rw [hb]
  cases hs : s.data with
  | nil => rw [hs] at h; simp [List.isPrefixOf] at h
  | cons c cs =>
    rw [hs] at h
    simp only [List.isPrefixOf, Bool.and_eq_true, beq_iff_eq] at h
    obtain ⟨rfl, -⟩ := h
    simp [List.isPrefixOf]

lemma reqOf_none_of_dataOfLine (l : String) (d : JVal) (h : dataOfLine l = some d) :
    reqOf l = none := by
  unfold dataOfLine at h
  unfold reqOf
  by_cases hsw : pyStartsWith (pystrip l) "data:" = true
  · rw [pyStartsWith_data_not_brace _ hsw]
    simp
  · simp only [Bool.not_eq_true] at hsw
    rw [hsw] at h
    simp at h

lemma emftLines_all_none (ls : List String) (h : ∀ l ∈ ls, reqOf l = none) :
    emftLines ls = .arr [] := by
  induction ls with
  | nil => rfl
  | cons l rest ih =>
    have hl := h l (List.mem_cons_self l rest)
    simp only [emftLines, hl]
    exact ih fun x hx => h x (List.mem_cons_of_mem l hx)

lemma map_eq_map_some_mem {α β γ : Type} (f : α → Option γ) (g : β → γ)
    (ls : List α) (ts : List β)
    (h : ls.map f = ts.map (fun t => some (g t))) :
    ∀ l ∈ ls, ∃ t, f l = some (g t) := by
  induction ls generalizing ts with
  | nil => intro l hl; cases hl
  | cons a as ih =>
    cases ts with
    | nil => simp at h
    | cons b bs =>
      simp only [List.map_cons, List.cons.injEq] at h
      intro l hl
      rcases List.mem_cons.mp hl with rfl | hmem
      · exact ⟨b, h.1⟩
      · exact ih bs h.2 l hmem

lemma ok_bind {α β : Type} (a : α) (f : α → Except PyErr β) :
    (Except.ok a >>= f) = f a := rfl

lemma extractFromLines_ok (lines : List String) (acc : SSEAcc) (tk tx : String)
    (hfold : List.foldlM sseLineStep ⟨[], [], []⟩ lines = .ok acc)
    (h1 : pyJoin acc.thinkingParts = .ok tk)
    (h2 : pyJoin acc.textParts = .ok tx) :
    extractFromLines lines = .ok ⟨emftLines lines, tk, tx, acc.toolUses⟩ := by
  unfold extractFromLines
  rw [hfold]
  simp only [h1, h2]

lemma fold_textFrames (ls : List String) (ts : List String) (i : Int) (acc : SSEAcc)
    (h : ls.map dataOfLine = ts.map (fun t => some (textFrame i t))) :
    List.foldlM sseLineStep acc ls =
      .ok ⟨acc.thinkingParts, acc.textParts ++ ts.map .str, acc.toolUses⟩ := by
  induction ls generalizing ts acc with
  | nil =>
    cases ts with
    | nil =>
      obtain ⟨a, b, c⟩ := acc
      simp only [List.foldlM, List.map_nil, List.append_nil]
      rfl
    | cons t rest => simp at h
  | cons l rest ih =>
    cases ts with
    | nil => simp at h
    | cons t ts2 =>
      simp only [List.map_cons, List.cons.injEq] at h
      have hstep : sseLineStep acc l =
          .ok ⟨acc.thinkingParts, acc.textParts ++ [.str t], acc.toolUses⟩ := by
        unfold sseLineStep
        rw [h.1]
        exact sseStep_textFrame acc i t
      simp only [List.foldlM_cons, hstep, ok_bind]
      rw [ih ts2 _ h.2]
      simp

lemma fold_thinkFrames (ls : List String) (ts : List String) (i : Int) (acc : SSEAcc)
    (h : ls.map dataOfLine = ts.map (fun t => some (thinkFrame i t))) :
    List.foldlM sseLineStep acc ls =
      .ok ⟨acc.thinkingParts ++ ts.map .str, acc.textParts, acc.toolUses⟩ := by
  induction ls generalizing ts acc with
  | nil =>
    cases ts with
    | nil =>
      obtain ⟨a, b, c⟩ := acc
      simp only [List.foldlM, List.map_nil, List.append_nil]
      rfl
    | cons t rest => simp at h
  | cons l rest ih =>
    cases ts with
    | nil => simp at h
    | cons t ts2 =>
      simp only [List.map_cons, List.cons.injEq] at h
      have hstep : sseLineStep acc l =
          .ok ⟨acc.thinkingParts ++ [.str t], acc.textParts, acc.toolUses⟩ := by
        unfold sseLineStep
        rw [h.1]
        exact sseStep_thinkFrame acc i t
      simp only [List.foldlM_cons, hstep, ok_bind]
      rw [ih ts2 _ h.2]
      simp

/-- C3: for every arrival sequence of `text_delta` fragments at one
index, the output `text` is the concatenation of their `text` fields in
arrival order (in particular `["He", "llo"]` gives `"Hello"`), and the
same concatenation-in-arrival-order rule sends `thinking_delta` fragments
into the `thinking` field. -/
theorem claim3_concatenation_in_arrival_order :
    (∀ (content : String) (i : Int) (ts : List String),
      (splitlines content).map dataOfLine = ts.map (fun t => some (textFrame i t)) →
      extract_sse_to_json content = .ok ⟨.arr [], "", strJoin ts, []⟩) ∧
    (∀ (content : String) (i : Int) (ts : List String),
      (splitlines content).map dataOfLine = ts.map (fun t => some (thinkFrame i t)) →
      extract_sse_to_json content = .ok ⟨.arr [], strJoin ts, "", []⟩) := by
  constructor
  · intro content i ts h
    have hfold := fold_textFrames (splitlines content) ts i ⟨[], [], []⟩ h
    have hmsg : emftLines (splitlines content) = .arr [] := by
      apply emftLines_all_none
      intro l hl
      obtain ⟨t, ht⟩ := map_eq_map_some_mem dataOfLine (fun t => textFrame i t) _ ts h l hl
      exact reqOf_none_of_dataOfLine l _ ht
    unfold extract_sse_to_json
    rw [extractFromLines_ok (splitlines content) _ "" (strJoin ts) hfold rfl
      (pyJoin_map_str ts), hmsg]
  · intro content i ts h
    have hfold := fold_thinkFrames (splitlines content) ts i ⟨[], [], []⟩ h
    have hmsg : emftLines (splitlines content) = .arr [] := by
      apply emftLines_all_none
      intro l hl
      obtain ⟨t, ht⟩ := map_eq_map_some_mem dataOfLine (fun t => thinkFrame i t) _ ts h l hl
      exact reqOf_none_of_dataOfLine l _ ht
    unfold extract_sse_to_json
    rw [extractFromLines_ok (splitlines content) _ (strJoin ts) "" hfold
      (pyJoin_map_str ts) rfl, hmsg]

theorem claim3_witness :
    extract_sse_to_json
      "data: \x7b\"type\": \"content_block_delta\", \"index\": 0, \"delta\": \x7b\"type\": \"text_delta\", \"text\": \"He\"\x7d\x7d\ndata: \x7b\"type\": \"content_block_delta\", \"index\": 0, \"delta\": \x7b\"type\": \"text_delta\", \"text\": \"llo\"\x7d\x7d" =
      .ok ⟨.arr [], "", "Hello", []⟩ ∧
    extract_sse_to_json
      "data: \x7b\"type\": \"content_block_delta\", \"index\": 0, \"delta\": \x7b\"type\": \"thinking_delta\", \"thinking\": \"He\"\x7d\x7d\ndata: \x7b\"type\": \"content_block_delta\", \"index\": 0, \"delta\": \x7b\"type\": \"thinking_delta\", \"thinking\": \"llo\"\x7d\x7d" =
      .ok ⟨.arr [], "Hello", "", []⟩ :=
  ⟨claim3_concatenation_in_arrival_order.1 _ 0 ["He", "llo"] rfl,
   claim3_concatenation_in_arrival_order.2 _ 0 ["He", "llo"] rfl⟩

lemma emftLines_first_match (pre post : List String) (l : String) (v : JVal)
    (hpre : ∀ x ∈ pre, reqOf x = none) (hl : reqOf l = some v) :
    emftLines (pre ++ l :: post) = v := by
  induction pre with
  | nil => simp only [List.nil_append, emftLines, hl]
  | cons p rest ih =>
    have hp := hpre p (List.mem_cons_self p rest)
    simp only [List.cons_append, emftLines, hp]
    exact ih fun x hx => hpre x (List.mem_cons_of_mem p hx)

lemma extract_message_eq (content : String) (r : SSERec)
    (h : extract_sse_to_json content = .ok r) :
    r.message = extract_messages_from_text content := by
  unfold extract_sse_to_json extractFromLines at h
  unfold extract_messages_from_text
  rcases hf : List.foldlM sseLineStep ⟨[], [], []⟩ (splitlines content) with e | acc
  · simp only [hf] at h
    exact Except.noConfusion h
  · simp only [hf] at h
    rcases h1 : pyJoin acc.thinkingParts with e | tk
    · simp only [h1] at h
      exact Except.noConfusion h
    · simp only [h1] at h
      rcases h2 : pyJoin acc.textParts with e | tx
      · simp only [h2] at h
        exact Except.noConfusion h
      · simp only [h2] at h
        cases h
        rfl

/-- C2: when the input contains lines that parse as a JSON object with
both a `messages` key and a `model` key, the `message` field of the
output record is the `messages` value of the first such line in line
order; earlier lines that fail the test (non-JSON or missing keys) are
skipped, and everything after the first match is ignored. -/
theorem claim2_first_request_body_wins (content : String)
    (pre post : List String) (l : String) (v : JVal)
    (hsplit : splitlines content = pre ++ l :: post)
    (hpre : pre.all (fun x => (reqOf x).isNone) = true)
    (hl : reqOf l = some v) :
    extract_messages_from_text content = v ∧
    (∀ r : SSERec, extract_sse_to_json content = .ok r → r.message = v) := by
  have hpre2 : ∀ x ∈ pre, reqOf x = none := by
    intro x hx
    have := (List.all_eq_true.mp hpre) x hx
    exact Option.isNone_iff_eq_none.mp this
  have hm : extract_messages_from_text content = v := by
    unfold extract_messages_from_text
    rw [hsplit]
    exact emftLines_first_match pre post l v hpre2 hl
  exact ⟨hm, fun r hr => (extract_message_eq content r hr).trans hm⟩

theorem claim2_witness :
    extract_messages_from_text
      "noise\n\x7b\"messages\": [1], \"model\": \"m\"\x7d\n\x7b\"messages\": [2], \"model\": \"m\"\x7d" =
      .arr [.num 1] :=
  (claim2_first_request_body_wins
    "noise\n\x7b\"messages\": [1], \"model\": \"m\"\x7d\n\x7b\"messages\": [2], \"model\": \"m\"\x7d"
    ["noise"] ["\x7b\"messages\": [2], \"model\": \"m\"\x7d"]
    "\x7b\"messages\": [1], \"model\": \"m\"\x7d" (.arr [.num 1])
    rfl rfl rfl).1

/-- A single line contributing nothing to either scan of
`extract_sse_to_json`: it does not classify as a `data:` SSE frame and
does not pass the request-body test. -/
def noiseLine (l : String) : Bool := (dataOfLine l).isNone && (reqOf l).isNone

lemma fold_skip_all (ls : List String) (acc : SSEAcc)
    (h : ∀ l ∈ ls, dataOfLine l = none) :
    List.foldlM sseLineStep acc ls = .ok acc := by
  induction ls with
  | nil => rfl
  | cons l rest ih =>
    have hl := h l (List.mem_cons_self l rest)
    have hstep : sseLineStep acc l = .ok acc := by
      unfold sseLineStep
      rw [hl]
    simp only [List.foldlM_cons, hstep, ok_bind]
    exact ih fun x hx => h x (List.mem_cons_of_mem l hx)

/-- C5: an input whose lines are all noise (no valid JSON line, no valid
`data:` frame) yields exactly the empty record, without error; moreover an
input with no valid delta line yields empty `thinking`, `text` and
`tool_use` whatever its request lines, and an input with no valid
request-body line yields an empty `message` list. -/
theorem claim5_noise_yields_empty_record :
    (∀ content : String, (splitlines content).all noiseLine = true →
      extract_sse_to_json content = .ok ⟨.arr [], "", "", []⟩) ∧
    (∀ content : String,
      (splitlines content).all (fun l => (dataOfLine l).isNone) = true →
      extract_sse_to_json content =
        .ok ⟨extract_messages_from_text content, "", "", []⟩) ∧
    (∀ content : String,
      (splitlines content).all (fun l => (reqOf l).isNone) = true →
      extract_messages_from_text content = .arr []) := by
  have hdelta : ∀ content : String,
      (splitlines content).all (fun l => (dataOfLine l).isNone) = true →
      extract_sse_to_json content =
        .ok ⟨extract_messages_from_text content, "", "", []⟩ := by
    intro content h
    have h2 : ∀ l ∈ splitlines content, dataOfLine l = none := by
      intro l hl
      exact Option.isNone_iff_eq_none.mp ((List.all_eq_true.mp h) l hl)
    unfold extract_sse_to_json
    exact extractFromLines_ok (splitlines content) ⟨[], [], []⟩ "" ""
      (fold_skip_all _ _ h2) rfl rfl
  have hreq : ∀ content : String,
      (splitlines content).all (fun l => (reqOf l).isNone) = true →
      extract_messages_from_text content = .arr [] := by
    intro content h
    unfold extract_messages_from_text
    apply emftLines_all_none
    intro l hl
    exact Option.isNone_iff_eq_none.mp ((List.all_eq_true.mp h) l hl)
  refine ⟨?_, hdelta, hreq⟩
  intro content h
  have h1 : (splitlines content).all (fun l => (dataOfLine l).isNone) = true := by
    rw [List.all_eq_true] at h ⊢
    intro l hl
    exact (Bool.and_eq_true_iff.mp (h l hl)).1
  have h2 : (splitlines content).all (fun l => (reqOf l).isNone) = true := by
    rw [List.all_eq_true] at h ⊢
    intro l hl
    exact (Bool.and_eq_true_iff.mp (h l hl)).2
  rw [hdelta content h1, hreq content h2]

theorem claim5_witness :
    extract_sse_to_json "GET /v1/messages HTTP/1.1\nplain noise\n\ndata: not json" =
      .ok ⟨.arr [], "", "", []⟩ :=
  claim5_noise_yields_empty_record.1 _ rfl

lemma fold_jsonFrames (ls : List String) (ps : List String) (i : Int) (acc : SSEAcc)
    (h : ls.map dataOfLine = ps.map (fun p => some (jsonFrame i p))) :
    List.foldlM sseLineStep acc ls =
      .ok ⟨acc.thinkingParts, acc.textParts, acc.toolUses ++ ps.filterMap pyloads⟩ := by
  induction ls generalizing ps acc with
  | nil =>
    cases ps with
    | nil =>
      obtain ⟨a, b, c⟩ := acc
      simp only [List.foldlM, List.filterMap_nil, List.append_nil]
      rfl
    | cons p rest => simp at h
  | cons l rest ih =>
    cases ps with
    | nil => simp at h
    | cons p ps2 =>
      simp only [List.map_cons, List.cons.injEq] at h
      have hstep : sseLineStep acc l =
          .ok ⟨acc.thinkingParts, acc.textParts, acc.toolUses ++ (pyloads p).toList⟩ := by
        unfold sseLineStep
        rw [h.1]
        exact sseStep_jsonFrame acc i p
      simp only [List.foldlM_cons, hstep, ok_bind]
      rw [ih ps2 _ h.2]
      cases hp : pyloads p with
      | none => simp [List.filterMap_cons, hp]
      | some tj => simp [List.filterMap_cons, hp]

lemma keyEq_json (i : Int) :
    keyEq (.str "input_json_delta", .num i) (.str "input_json_delta", .num i) = true := by
  simp [keyEq, pyEqScalar]

lemma buildGroups_cons_json (i : Int) (p : String) (rest : List JVal) (gs : Groups) :
    buildGroups (jsonFrame i p :: rest) gs =
      buildGroups rest (groupAdd gs (.str "input_json_delta", .num i) (jsonDelta p)) := rfl

lemma groupAdd_json_singleton (i : Int) (ds : List JVal) (d : JVal) :
    groupAdd [((.str "input_json_delta", .num i), ds)]
        (.str "input_json_delta", .num i) d =
      [((.str "input_json_delta", .num i), ds ++ [d])] := by
  unfold groupAdd
  rw [keyEq_json]
  simp

lemma buildGroups_jsonFrames (ps : List String) (i : Int) (ds : List JVal) :
    buildGroups (ps.map (jsonFrame i)) [((.str "input_json_delta", .num i), ds)] =
      .ok [((.str "input_json_delta", .num i), ds ++ ps.map jsonDelta)] := by
  induction ps generalizing ds with
  | nil => simp [buildGroups]
  | cons p rest ih =>
    simp only [List.map_cons]
    rw [buildGroups_cons_json, groupAdd_json_singleton, ih]
    simp

lemma emitGroup_json (idx : JVal) (ds : List JVal) :
    emitGroup (.str "input_json_delta", idx) ds = .ok (ds.map .toolUse) := rfl

/-- C4: `input_json_delta` fragments at the same index are never merged:
in the eager-parse path each fragment is parsed on its own and appended to
`tool_use` as a separate entry, and `consolidate_deltas` likewise emits
one `tool_use` entry per fragment; in particular partial JSON strings
`\x7b"a":1\x7d` and `\x7b"b":2\x7d` yield two entries. -/
theorem claim4_tool_fragments_not_merged :
    (∀ (content : String) (i : Int) (ps : List String),
      (splitlines content).map dataOfLine = ps.map (fun p => some (jsonFrame i p)) →
      extract_sse_to_json content = .ok ⟨.arr [], "", "", ps.filterMap pyloads⟩) ∧
    (∀ (i : Int) (ps : List String),
      consolidate_deltas (ps.map (jsonFrame i)) =
        .ok (ps.map (fun p => CEntry.toolUse (jsonDelta p)))) := by
  constructor
  · intro content i ps h
    have hfold := fold_jsonFrames (splitlines content) ps i ⟨[], [], []⟩ h
    have hmsg : emftLines (splitlines content) = .arr [] := by
      apply emftLines_all_none
      intro l hl
      obtain ⟨p, hp⟩ := map_eq_map_some_mem dataOfLine (fun p => jsonFrame i p) _ ps h l hl
      exact reqOf_none_of_dataOfLine l _ hp
    unfold extract_sse_to_json
    rw [extractFromLines_ok (splitlines content) _ "" "" hfold rfl rfl, hmsg]
    rfl
  · intro i ps
    cases ps with
    | nil => rfl
    | cons p rest =>
      unfold consolidate_deltas
      have hb : buildGroups ((p :: rest).map (jsonFrame i)) [] =
          .ok [((.str "input_json_delta", .num i), jsonDelta p :: rest.map jsonDelta)] := by
        simp only [List.map_cons]
        rw [buildGroups_cons_json]
        show buildGroups (rest.map (jsonFrame i))
            [((.str "input_json_delta", .num i), [jsonDelta p])] = _
        rw [buildGroups_jsonFrames]
        simp
      rw [hb]
      show (match sortDescM [((.str "input_json_delta", .num i),
          jsonDelta p :: rest.map jsonDelta)] with
        | .error e => (.error e : Except PyErr (List CEntry))
        | .ok sorted => emitAll sorted) = _
      rw [show sortDescM [((.str "input_json_delta", .num i),
          jsonDelta p :: rest.map jsonDelta)] =
        .ok [((.str "input_json_delta", .num i), jsonDelta p :: rest.map jsonDelta)] from rfl]
      show emitAll [((.str "input_json_delta", .num i),
          jsonDelta p :: rest.map jsonDelta)] = _
      unfold emitAll
      rw [emitGroup_json]
      simp [emitAll, Function.comp]

theorem claim4_witness :
    extract_sse_to_json
      "data: \x7b\"type\": \"content_block_delta\", \"index\": 0, \"delta\": \x7b\"type\": \"input_json_delta\", \"partial_json\": \"\x7b\\\"a\\\":1\x7d\"\x7d\x7d\ndata: \x7b\"type\": \"content_block_delta\", \"index\": 0, \"delta\": \x7b\"type\": \"input_json_delta\", \"partial_json\": \"\x7b\\\"b\\\":2\x7d\"\x7d\x7d" =
      .ok ⟨.arr [], "", "", [.obj [("a", .num 1)], .obj [("b", .num 2)]]⟩ :=
  claim4_tool_fragments_not_merged.1
    "data: \x7b\"type\": \"content_block_delta\", \"index\": 0, \"delta\": \x7b\"type\": \"input_json_delta\", \"partial_json\": \"\x7b\\\"a\\\":1\x7d\"\x7d\x7d\ndata: \x7b\"type\": \"content_block_delta\", \"index\": 0, \"delta\": \x7b\"type\": \"input_json_delta\", \"partial_json\": \"\x7b\\\"b\\\":2\x7d\"\x7d\x7d"
    0 ["\x7b\"a\":1\x7d", "\x7b\"b\":2\x7d"] rfl

/-- An `input_json_delta` event whose delta object carries no
`partial_json` field. -/
def jsonFrameNoPJ (i : Int) : JVal :=
  .obj [("type", .str "content_block_delta"), ("index", .num i),
        ("delta", .obj [("type", .str "input_json_delta")])]

/-- C9: in the eager-parse path an `input_json_delta` fragment without a
`partial_json` field contributes the empty object (the missing field
defaults to the string `"\x7b\x7d"`), and a `partial_json` string parsing
to a non-object value such as `"42"` contributes that value; neither is
dropped.  The closed conjunct shows both inside one full
`extract_sse_to_json` run. -/
theorem claim9_partial_json_defaults :
    (∀ (acc : SSEAcc) (i : Int),
      sseStep acc (jsonFrameNoPJ i) =
        .ok ⟨acc.thinkingParts, acc.textParts, acc.toolUses ++ [.obj []]⟩) ∧
    (∀ (acc : SSEAcc) (i : Int),
      sseStep acc (jsonFrame i "42") =
        .ok ⟨acc.thinkingParts, acc.textParts, acc.toolUses ++ [.num 42]⟩) ∧
    extract_sse_to_json
      "data: \x7b\"type\": \"content_block_delta\", \"index\": 0, \"delta\": \x7b\"type\": \"input_json_delta\"\x7d\x7d\ndata: \x7b\"type\": \"content_block_delta\", \"index\": 0, \"delta\": \x7b\"type\": \"input_json_delta\", \"partial_json\": \"42\"\x7d\x7d" =
      .ok ⟨.arr [], "", "", [.obj [], .num 42]⟩ :=
  ⟨fun _ _ => rfl, fun _ _ => rfl, rfl⟩

/-! ### Index independence (C10) -/

/-- Replace the value stored under the top-level `index` key of an event
object with `null`, keeping its position; other values are unchanged. -/
def eraseIndex (v : JVal) : JVal :=
  match v with
  | .obj fs => .obj (fs.map (fun kv => if kv.1 = "index" then (kv.1, .null) else kv))
  | v => v

lemma objFind_eraseIndex (fs : List (String × JVal)) (k : String) (hk : k ≠ "index") :
    objFind (fs.map (fun kv => if kv.1 = "index" then (kv.1, .null) else kv)) k =
      objFind fs k := by
  have hne : ¬ ("index" = k) := fun he => hk he.symm
  induction fs with
  | nil => rfl
  | cons kv rest ih =>
    obtain ⟨k1, v1⟩ := kv
    by_cases h : k1 = "index"
    · subst h
      simp [objFind, hne, ih]
    · simp [objFind, h, ih]

lemma objGetD_of_eraseIndex_eq (fs gs : List (String × JVal)) (k : String)
    (hk : k ≠ "index") (h : eraseIndex (.obj fs) = eraseIndex (.obj gs)) :
    objGetD fs k = objGetD gs k := by
  unfold eraseIndex at h
  injection h with h2
  funext d
  unfold objGetD
  rw [← objFind_eraseIndex fs k hk, ← objFind_eraseIndex gs k hk, h2]

lemma sseStep_eraseIndex (acc : SSEAcc) (d1 d2 : JVal)
    (h : eraseIndex d1 = eraseIndex d2) :
    sseStep acc d1 = sseStep acc d2 := by
  cases d1 with
  | obj fs =>
    cases d2 with
    | obj gs =>
      have htype := objGetD_of_eraseIndex_eq fs gs "type" (by decide) h
      have hdelta := objGetD_of_eraseIndex_eq fs gs "delta" (by decide) h
      simp only [sseStep, htype, hdelta]
    | null => simp [eraseIndex] at h
    | bool b => simp [eraseIndex] at h
    | num n => simp [eraseIndex] at h
    | str s => simp [eraseIndex] at h
    | arr xs => simp [eraseIndex] at h
  | null =>
    cases d2 with
    | obj gs => simp [eraseIndex] at h
    | null => rfl
    | bool b => simp [eraseIndex] at h
    | num n => simp [eraseIndex] at h
    | str s => simp [eraseIndex] at h
    | arr xs => simp [eraseIndex] at h
  | bool b1 =>
    cases d2 with
    | obj gs => simp [eraseIndex] at h
    | bool b2 => simp only [eraseIndex] at h; rw [h]
    | null => simp [eraseIndex] at h
    | num n => simp [eraseIndex] at h
    | str s => simp [eraseIndex] at h
    | arr xs => simp [eraseIndex] at h
  | num n1 =>
    cases d2 with
    | obj gs => simp [eraseIndex] at h
    | num n2 => simp only [eraseIndex] at h; rw [h]
    | null => simp [eraseIndex] at h
    | bool b => simp [eraseIndex] at h
    | str s => simp [eraseIndex] at h
    | arr xs => simp [eraseIndex] at h
  | str s1 =>
    cases d2 with
    | obj gs => simp [eraseIndex] at h
    | str s2 => simp only [eraseIndex] at h; rw [h]
    | null => simp [eraseIndex] at h
    | bool b => simp [eraseIndex] at h
    | num n => simp [eraseIndex] at h
    | arr xs => simp [eraseIndex] at h
  | arr xs1 =>
    cases d2 with
    | obj gs => simp [eraseIndex] at h
    | arr xs2 => simp only [eraseIndex] at h; rw [h]
    | null => simp [eraseIndex] at h
    | bool b => simp [eraseIndex] at h
    | num n => simp [eraseIndex] at h
    | str s => simp [eraseIndex] at h

lemma sseLineStep_congr (acc : SSEAcc) (l1 l2 : String)
    (h : (dataOfLine l1).map eraseIndex = (dataOfLine l2).map eraseIndex) :
    sseLineStep acc l1 = sseLineStep acc l2 := by
  unfold sseLineStep
  cases h1 : dataOfLine l1 with
  | none =>
    cases h2 : dataOfLine l2 with
    | none => rfl
    | some d2 => rw [h1, h2] at h; simp at h
  | some d1 =>
    cases h2 : dataOfLine l2 with
    | none => rw [h1, h2] at h; simp at h
    | some d2 =>
      rw [h1, h2] at h
      simp only [Option.map_some', Option.some.injEq] at h
      exact sseStep_eraseIndex acc d1 d2 h

lemma fold_congr_eraseIndex (ls1 ls2 : List String) (acc : SSEAcc)
    (h : ls1.map (fun l => ((dataOfLine l).map eraseIndex, reqOf l)) =
         ls2.map (fun l => ((dataOfLine l).map eraseIndex, reqOf l))) :
    List.foldlM sseLineStep acc ls1 = List.foldlM sseLineStep acc ls2 := by
  induction ls1 generalizing ls2 acc with
  | nil =>
    cases ls2 with
    | nil => rfl
    | cons l2 rest2 => simp at h
  | cons l1 rest1 ih =>
    cases ls2 with
    | nil => simp at h
    | cons l2 rest2 =>
      simp only [List.map_cons, List.cons.injEq, Prod.mk.injEq] at h
      have hstep := sseLineStep_congr acc l1 l2 h.1.1
      simp only [List.foldlM_cons, hstep]
      cases hs : sseLineStep acc l2 with
      | error e => rfl
      | ok a =>
        simp only [ok_bind]
        exact ih rest2 a h.2

lemma emftLines_congr (ls1 ls2 : List String)
    (h : ls1.map reqOf = ls2.map reqOf) :
    emftLines ls1 = emftLines ls2 := by
  induction ls1 generalizing ls2 with
  | nil =>
    cases ls2 with
    | nil => rfl
    | cons l2 rest2 => simp at h
  | cons l1 rest1 ih =>
    cases ls2 with
    | nil => simp at h
    | cons l2 rest2 =>
      simp only [List.map_cons, List.cons.injEq] at h
      simp only [emftLines, h.1]
      cases hr : reqOf l2 with
      | some v => rfl
      | none => exact ih rest2 h.2

/-- C10: the record produced by `extract_sse_to_json` is independent of
the `index` values of the events: two inputs whose lines agree after the
top-level `index` value of every parsed `data:` body is erased (and agree
on the request-body scan) produce identical records. -/
theorem claim10_index_independence (c1 c2 : String)
    (h : (splitlines c1).map (fun l => ((dataOfLine l).map eraseIndex, reqOf l)) =
         (splitlines c2).map (fun l => ((dataOfLine l).map eraseIndex, reqOf l))) :
    extract_sse_to_json c1 = extract_sse_to_json c2 := by
  have hreq : (splitlines c1).map reqOf = (splitlines c2).map reqOf := by
    have := congrArg (List.map Prod.snd) h
    simpa [List.map_map, Function.comp] using this
  have hfold := fold_congr_eraseIndex (splitlines c1) (splitlines c2) ⟨[], [], []⟩ h
  have hmsg := emftLines_congr (splitlines c1) (splitlines c2) hreq
  unfold extract_sse_to_json extractFromLines
  rw [hfold, hmsg]

theorem claim10_witness :
    extract_sse_to_json
      "data: \x7b\"type\":\"content_block_delta\",\"index\":0,\"delta\":\x7b\"type\":\"text_delta\",\"text\":\"a\"\x7d\x7d" =
    extract_sse_to_json
      "data: \x7b\"type\":\"content_block_delta\",\"index\":7,\"delta\":\x7b\"type\":\"text_delta\",\"text\":\"a\"\x7d\x7d" :=
  claim10_index_independence
    "data: \x7b\"type\":\"content_block_delta\",\"index\":0,\"delta\":\x7b\"type\":\"text_delta\",\"text\":\"a\"\x7d\x7d"
    "data: \x7b\"type\":\"content_block_delta\",\"index\":7,\"delta\":\x7b\"type\":\"text_delta\",\"text\":\"a\"\x7d\x7d"
    (by
      have h1 : (splitlines
          "data: \x7b\"type\":\"content_block_delta\",\"index\":0,\"delta\":\x7b\"type\":\"text_delta\",\"text\":\"a\"\x7d\x7d").map
            (fun l => ((dataOfLine l).map eraseIndex, reqOf l)) =
          [(some (.obj [("type", .str "content_block_delta"), ("index", .null),
            ("delta", .obj [("type", .str "text_delta"), ("text", .str "a")])]),
            (none : Option JVal))] := rfl
      have h2 : (splitlines
          "data: \x7b\"type\":\"content_block_delta\",\"index\":7,\"delta\":\x7b\"type\":\"text_delta\",\"text\":\"a\"\x7d\x7d").map
            (fun l => ((dataOfLine l).map eraseIndex, reqOf l)) =
          [(some (.obj [("type", .str "content_block_delta"), ("index", .null),
            ("delta", .obj [("type", .str "text_delta"), ("text", .str "a")])]),
            (none : Option JVal))] := rfl
      exact h1.trans h2.symm)

/-! ### Unknown delta types (C7) -/

lemma sseStep_unrecognized (acc : SSEAcc) (fs ds : List (String × JVal)) (dt : String)
    (h2 : objGetD fs "type" .null = .str "content_block_delta")
    (h3 : objGetD fs "delta" (.obj []) = .obj ds)
    (h4 : objGetD ds "type" .null = .str dt)
    (n1 : dt ≠ "thinking_delta") (n2 : dt ≠ "text_delta")
    (n3 : dt ≠ "input_json_delta") :
    sseStep acc (.obj fs) = .ok acc := by
  simp only [sseStep, h2, h3, h4]
  simp [n1, n2, n3]

lemma emftLines_skip (pre post : List String) (l : String) (hl : reqOf l = none) :
    emftLines (pre ++ l :: post) = emftLines (pre ++ post) := by
  induction pre with
  | nil => simp only [List.nil_append, emftLines, hl]
  | cons p rest ih =>
    simp only [List.cons_append, emftLines]
    cases reqOf p with
    | some v => rfl
    | none => exact ih

lemma foldlM_skip_line (pre post : List String) (l : String)
    (hl : ∀ acc : SSEAcc, sseLineStep acc l = .ok acc) (acc : SSEAcc) :
    List.foldlM sseLineStep acc (pre ++ l :: post) =
      List.foldlM sseLineStep acc (pre ++ post) := by
  rw [List.foldlM_append, List.foldlM_append]
  cases hfold : List.foldlM sseLineStep acc pre with
  | error e => rfl
  | ok a =>
    simp only [ok_bind]
    simp only [List.foldlM_cons, hl a, ok_bind]

/-- C7: a `content_block_delta` event whose delta `type` is none of the
three recognized kinds (for example `citation_delta`) contributes nothing
to the record and does not raise: deleting its line leaves the result of
`extract_sse_to_json` on the remaining lines unchanged; in
`consolidate_deltas`, a group with an unrecognized delta type emits no
output entries. -/
theorem claim7_unknown_delta_type_ignored :
    (∀ (pre post : List String) (l : String) (fs ds : List (String × JVal)) (dt : String),
      dataOfLine l = some (.obj fs) →
      objGetD fs "type" .null = .str "content_block_delta" →
      objGetD fs "delta" (.obj []) = .obj ds →
      objGetD ds "type" .null = .str dt →
      dt ≠ "thinking_delta" → dt ≠ "text_delta" → dt ≠ "input_json_delta" →
      extractFromLines (pre ++ l :: post) = extractFromLines (pre ++ post)) ∧
    (∀ (dt : String) (idx : JVal) (ds : List JVal),
      dt ≠ "text_delta" → dt ≠ "thinking_delta" → dt ≠ "input_json_delta" →
      emitGroup (.str dt, idx) ds = .ok []) := by
  constructor
  · intro pre post l fs ds dt hline h2 h3 h4 n1 n2 n3
    have hstep : ∀ acc : SSEAcc, sseLineStep acc l = .ok acc := by
      intro acc
      unfold sseLineStep
      rw [hline]
      exact sseStep_unrecognized acc fs ds dt h2 h3 h4 n1 n2 n3
    have hreq : reqOf l = none := reqOf_none_of_dataOfLine l _ hline
    unfold extractFromLines
    rw [foldlM_skip_line pre post l hstep, emftLines_skip pre post l hreq]
  · intro dt idx ds n1 n2 n3
    unfold emitGroup
    simp [n1, n2, n3]

theorem claim7_witness :
    extractFromLines
      ["data: \x7b\"type\":\"content_block_delta\",\"index\":0,\"delta\":\x7b\"type\":\"citation_delta\",\"text\":\"zap\"\x7d\x7d",
       "data: \x7b\"type\":\"content_block_delta\",\"index\":0,\"delta\":\x7b\"type\":\"text_delta\",\"text\":\"ok\"\x7d\x7d"] =
    extractFromLines
      ["data: \x7b\"type\":\"content_block_delta\",\"index\":0,\"delta\":\x7b\"type\":\"text_delta\",\"text\":\"ok\"\x7d\x7d"] :=
  claim7_unknown_delta_type_ignored.1 []
    ["data: \x7b\"type\":\"content_block_delta\",\"index\":0,\"delta\":\x7b\"type\":\"text_delta\",\"text\":\"ok\"\x7d\x7d"]
    "data: \x7b\"type\":\"content_block_delta\",\"index\":0,\"delta\":\x7b\"type\":\"citation_delta\",\"text\":\"zap\"\x7d\x7d"
    [("type", .str "content_block_delta"), ("index", .num 0),
      ("delta", .obj [("type", .str "citation_delta"), ("text", .str "zap")])]
    [("type", .str "citation_delta"), ("text", .str "zap")]
    "citation_delta" rfl rfl rfl rfl
    (by decide) (by decide) (by decide)

/-! ### The `data:` prefix discrepancy (C8) -/

/-- A string with neither leading nor trailing Python whitespace. -/
def noEdgeWs (s : String) : Bool :=
  (match s.data.head? with | some c => !(isPyWs c) | none => true) &&
  (match s.data.getLast? with | some c => !(isPyWs c) | none => true)

lemma stripLead_eq_self (cs : List Char)
    (h : ∀ c, cs.head? = some c → isPyWs c = false) : stripLead cs = cs := by
  cases cs with
  | nil => rfl
  | cons c rest =>
    unfold stripLead
    rw [List.dropWhile_cons, h c rfl]
    simp

lemma stripTrail_eq_self (cs : List Char)
    (h : ∀ c, cs.getLast? = some c → isPyWs c = false) : stripTrail cs = cs := by
  unfold stripTrail
  have h2 : ∀ c, cs.reverse.head? = some c → isPyWs c = false := by
    intro c hc
    rw [List.head?_reverse] at hc
    exact h c hc
  cases hr : cs.reverse with
  | nil =>
    have : cs = [] := by
      have := congrArg List.reverse hr
      simpa using this
    simp [this]
  | cons c rest =>
    rw [List.dropWhile_cons, h2 c (by rw [hr]; rfl)]
    simp only [Bool.false_eq_true, if_false]
    rw [← hr, List.reverse_reverse]

lemma pystrip_eq_self (s : String) (h : noEdgeWs s = true) : pystrip s = s := by
  unfold noEdgeWs at h
  rw [Bool.and_eq_true_iff] at h
  have hh : ∀ c, s.data.head? = some c → isPyWs c = false := by
    intro c hc
    have := h.1
    rw [hc] at this
    simpa using this
  have hl : ∀ c, s.data.getLast? = some c → isPyWs c = false := by
    intro c hc
    have := h.2
    rw [hc] at this
    simpa using this
  unfold pystrip
  rw [stripLead_eq_self s.data hh, stripTrail_eq_self s.data hl]

lemma data_append (a b : String) : (a ++ b).data = a.data ++ b.data := rfl

lemma pystrip_data_colon (body : String) (h : noEdgeWs body = true) :
    pystrip ("data:" ++ body) = "data:" ++ body := by
  apply pystrip_eq_self
  unfold noEdgeWs at h ⊢
  rw [Bool.and_eq_true_iff] at h
  rw [Bool.and_eq_true_iff]
  constructor
  · rw [data_append]
    rfl
  · rw [data_append]
    cases hb : body.data with
    | nil => rfl
    | cons c rest =>
      have h2 := h.2
      rw [hb] at h2
      rw [List.getLast?_append_of_ne_nil _ (by simp)]
      exact h2

lemma pystrip_data_space (body : String) (h : noEdgeWs body = true) :
    pystrip ("data: " ++ body) =
      if body.data.isEmpty then "data:" else "data: " ++ body := by
  unfold noEdgeWs at h
  rw [Bool.and_eq_true_iff] at h
  cases hb : body.data with
  | nil =>
    have hempty : body = "" := by
      cases body with
      | mk d => cases hb; rfl
    simp [hempty]
    rfl
  | cons c rest =>
    have h1 := h.1
    rw [hb] at h1
    have h2 := h.2
    rw [hb] at h2
    simp only [hb, List.isEmpty_cons, if_false, Bool.false_eq_true]
    apply pystrip_eq_self
    unfold noEdgeWs
    rw [Bool.and_eq_true_iff]
    constructor
    · rw [data_append]
      rfl
    · rw [data_append, hb]
      rw [List.getLast?_append_of_ne_nil _ (by simp)]
      exact h2

lemma noEdgeWs_head (body : String) (h : noEdgeWs body = true) (c : Char)
    (hc : body.data.head? = some c) : isPyWs c = false := by
  unfold noEdgeWs at h
  rw [Bool.and_eq_true_iff] at h
  have := h.1
  rw [hc] at this
  simpa using this

lemma pyloads_empty_of_nil (body : String) (hb : body.data = []) :
    pyloads body = none := by
  unfold pyloads
  rw [hb]
  rfl

lemma pystrip_drop5_space (body : String) (h : noEdgeWs body = true)
    (c : Char) (rest : List Char) (hb : body.data = c :: rest) :
    pystrip (⟨' ' :: body.data⟩ : String) = body := by
  have hh : isPyWs c = false := noEdgeWs_head body h c (by rw [hb]; rfl)
  unfold pystrip
  have e1 : stripLead (' ' :: body.data) = stripLead body.data := by
    unfold stripLead
    rw [List.dropWhile_cons]
    simp [isPyWs]
  rw [e1]
  have e2 : stripLead body.data = body.data := by
    apply stripLead_eq_self
    intro d hd
    rw [hb] at hd
    cases hd
    exact hh
  rw [e2]
  have e3 : stripTrail body.data = body.data := by
    apply stripTrail_eq_self
    intro d hd
    unfold noEdgeWs at h
    rw [Bool.and_eq_true_iff] at h
    have := h.2
    rw [hd] at this
    simpa using this
  rw [e3]

/-- C8 counterexample: the claim says the line classifier (including
`parse_delta_line`, one of its cited sources) accepts `data:` with no
space after the colon; `parse_delta_line` in fact requires the literal
`data: ` and returns `None` on such a line, while the inline classifier
of `extract_sse_to_json` does accept it. -/
theorem claim8_counterexample :
    parse_delta_line
      "data:\x7b\"type\": \"content_block_delta\", \"index\": 0, \"delta\": \x7b\"type\": \"text_delta\", \"text\": \"x\"\x7d\x7d" =
      none ∧
    dataOfLine
      "data:\x7b\"type\": \"content_block_delta\", \"index\": 0, \"delta\": \x7b\"type\": \"text_delta\", \"text\": \"x\"\x7d\x7d" =
      some (textFrame 0 "x") := ⟨rfl, rfl⟩

/-- C8 (amended): for a JSON body with no surrounding whitespace that
`json.loads` accepts, the inline classifier of `extract_sse_to_json`
extracts the fragment both with and without a space after `data:`,
whereas `parse_delta_line` extracts it only when the space is present and
returns `None` on the no-space form. -/
theorem claim8_data_colon_behavior (body : String) (v : JVal)
    (hk : noEdgeWs body = true) (hp : pyloads body = some v) :
    dataOfLine ("data:" ++ body) = some v ∧
    dataOfLine ("data: " ++ body) = some v ∧
    parse_delta_line ("data:" ++ body) = none ∧
    parse_delta_line ("data: " ++ body) = some v := by
  have hnonempty : body.data ≠ [] := by
    intro hb
    rw [pyloads_empty_of_nil body hb] at hp
    cases hp
  obtain ⟨c, rest, hb⟩ : ∃ c rest, body.data = c :: rest := by
    cases hcase : body.data with
    | nil => exact absurd hcase hnonempty
    | cons c rest => exact ⟨c, rest, rfl⟩
  have hheadc : isPyWs c = false := noEdgeWs_head body hk c (by rw [hb]; rfl)
  have hstrip1 := pystrip_data_colon body hk
  have hstrip2 : pystrip ("data: " ++ body) = "data: " ++ body := by
    rw [pystrip_data_space body hk]
    simp [hb]
  refine ⟨?_, ?_, ?_, ?_⟩
  · unfold dataOfLine
    rw [hstrip1]
    have hsw : pyStartsWith ("data:" ++ body) "data:" = true := by
      unfold pyStartsWith
      rw [data_append]
      show List.isPrefixOf ['d', 'a', 't', 'a', ':']
        ('d' :: 'a' :: 't' :: 'a' :: ':' :: body.data) = true
      simp [List.isPrefixOf]
    simp only [hsw, if_true]
    have hdrop : pyDrop ("data:" ++ body) 5 = body := by
      unfold pyDrop
      rw [data_append]
      rfl
    rw [hdrop, pystrip_eq_self body hk, hp]
  · unfold dataOfLine
    rw [hstrip2]
    have hsw : pyStartsWith ("data: " ++ body) "data:" = true := by
      unfold pyStartsWith
      rw [data_append]
      show List.isPrefixOf ['d', 'a', 't', 'a', ':']
        ('d' :: 'a' :: 't' :: 'a' :: ':' :: ' ' :: body.data) = true
      simp [List.isPrefixOf]
    simp only [hsw, if_true]
    have hdrop : pyDrop ("data: " ++ body) 5 = (⟨' ' :: body.data⟩ : String) := by
      unfold pyDrop
      rw [data_append]
      rfl
    rw [hdrop, pystrip_drop5_space body hk c rest hb, hp]
  · unfold parse_delta_line
    rw [hstrip1]
    have hsw : pyStartsWith ("data:" ++ body) "data: " = false := by
      unfold pyStartsWith
      rw [data_append]
      show List.isPrefixOf ['d', 'a', 't', 'a', ':', ' '] ("data:".data ++ body.data) = false
      rw [hb]
      show (' ' == c && List.isPrefixOf [] rest) = false
      have : (' ' == c) = false := by
        rw [beq_eq_false_iff_ne]
        intro he
        rw [← he] at hheadc
        simp [isPyWs] at hheadc
      rw [this]
      rfl
    rw [hsw]
    simp
  · unfold parse_delta_line
    rw [hstrip2]
    have hsw : pyStartsWith ("data: " ++ body) "data: " = true := by
      unfold pyStartsWith
      rw [data_append]
      show List.isPrefixOf ['d', 'a', 't', 'a', ':', ' ']
        ('d' :: 'a' :: 't' :: 'a' :: ':' :: ' ' :: body.data) = true
      simp [List.isPrefixOf]
    simp only [hsw, if_true]
    have hdrop : pyDrop ("data: " ++ body) 6 = body := by
      unfold pyDrop
      rw [data_append]
      rfl
    rw [hdrop, hp]

theorem claim8_witness :
    dataOfLine ("data:" ++ "\x7b\"a\":1\x7d") = some (.obj [("a", .num 1)]) ∧
    parse_delta_line ("data:" ++ "\x7b\"a\":1\x7d") = none ∧
    parse_delta_line ("data: " ++ "\x7b\"a\":1\x7d") = some (.obj [("a", .num 1)]) :=
  have h := claim8_data_colon_behavior "\x7b\"a\":1\x7d" (.obj [("a", .num 1)]) rfl rfl
  ⟨h.1, h.2.2.1, h.2.2.2⟩

/-! ### Channel isolation (C6) -/

/-- The delta object of a parsed `data:` body, when the body is an object
of type `content_block_delta` whose `delta` value is an object. -/
def deltaObjOf (d : JVal) : Option (List (String × JVal)) :=
  match d with
  | .obj fs =>
    match objGetD fs "type" .null with
    | .str t =>
      if t = "content_block_delta" then
        match objGetD fs "delta" (.obj []) with
        | .obj ds => some ds
        | _ => none
      else none
    | _ => none
  | _ => none

/-- The value a frame appends to `text_parts`: only `text_delta` frames
contribute, via their `text` field. -/
def textContrib (d : JVal) : Option JVal :=
  match deltaObjOf d with
  | some ds =>
    match objGetD ds "type" .null with
    | .str dt => if dt = "text_delta" then some (objGetD ds "text" (.str "")) else none
    | _ => none
  | none => none

/-- The value a frame appends to `thinking_parts`: only `thinking_delta`
frames contribute, via their `thinking` field. -/
def thinkContrib (d : JVal) : Option JVal :=
  match deltaObjOf d with
  | some ds =>
    match objGetD ds "type" .null with
    | .str dt =>
      if dt = "thinking_delta" then some (objGetD ds "thinking" (.str "")) else none
    | _ => none
  | none => none

lemma sseStep_parts (acc : SSEAcc) (d : JVal) (acc2 : SSEAcc)
    (h : sseStep acc d = .ok acc2) :
    acc2.thinkingParts = acc.thinkingParts ++ (thinkContrib d).toList ∧
    acc2.textParts = acc.textParts ++ (textContrib d).toList := by
  cases d with
  | null => simp [sseStep] at h
  | bool b => simp [sseStep] at h
  | num n => simp [sseStep] at h
  | str s => simp [sseStep] at h
  | arr xs => simp [sseStep] at h
  | obj fs =>
    rcases h1 : objGetD fs "type" JVal.null with _ | b | n | t | xs | gs
    · simp only [sseStep, h1] at h
      cases h
      simp [thinkContrib, textContrib, deltaObjOf, h1]
    · simp only [sseStep, h1] at h
      cases h
      simp [thinkContrib, textContrib, deltaObjOf, h1]
    · simp only [sseStep, h1] at h
      cases h
      simp [thinkContrib, textContrib, deltaObjOf, h1]
    · by_cases ht : t = "content_block_delta"
      · subst ht
        simp only [sseStep, h1, if_pos rfl] at h
        rcases h2 : objGetD fs "delta" (JVal.obj []) with _ | b2 | n2 | t2 | xs2 | ds
        · simp only [h2] at h
          exact Except.noConfusion h
        · simp only [h2] at h
          exact Except.noConfusion h
        · simp only [h2] at h
          exact Except.noConfusion h
        · simp only [h2] at h
          exact Except.noConfusion h
        · simp only [h2] at h
          exact Except.noConfusion h
        · simp only [h2] at h
          rcases h3 : objGetD ds "type" JVal.null with _ | b3 | n3 | t3 | xs3 | gs3
          · simp only [h3] at h
            cases h
            simp [thinkContrib, textContrib, deltaObjOf, h1, h2, h3]
          · simp only [h3] at h
            cases h
            simp [thinkContrib, textContrib, deltaObjOf, h1, h2, h3]
          · simp only [h3] at h
            cases h
            simp [thinkContrib, textContrib, deltaObjOf, h1, h2, h3]
          · simp only [h3] at h
            by_cases hthink : t3 = "thinking_delta"
            · subst hthink
              simp at h
              cases h
              simp [thinkContrib, textContrib, deltaObjOf, h1, h2, h3]
            · by_cases htext : t3 = "text_delta"
              · subst htext
                simp at h
                cases h
                simp [thinkContrib, textContrib, deltaObjOf, h1, h2, h3]
              · by_cases hjson : t3 = "input_json_delta"
                · subst hjson
                  simp at h
                  rcases h4 : objGetD ds "partial_json" (JVal.str "\x7b\x7d") with
                      _ | b4 | n4 | pj | xs4 | gs4
                  · simp only [h4] at h
                    cases h
                    simp [thinkContrib, textContrib, deltaObjOf, h1, h2, h3]
                  · simp only [h4] at h
                    cases h
                    simp [thinkContrib, textContrib, deltaObjOf, h1, h2, h3]
                  · simp only [h4] at h
                    cases h
                    simp [thinkContrib, textContrib, deltaObjOf, h1, h2, h3]
                  · simp only [h4] at h
                    cases h5 : pyloads pj
                    · simp only [h5] at h
                      cases h
                      simp [thinkContrib, textContrib, deltaObjOf, h1, h2, h3]
                    · simp only [h5] at h
                      cases h
                      simp [thinkContrib, textContrib, deltaObjOf, h1, h2, h3]
                  · simp only [h4] at h
                    cases h
                    simp [thinkContrib, textContrib, deltaObjOf, h1, h2, h3]
                  · simp only [h4] at h
                    cases h
                    simp [thinkContrib, textContrib, deltaObjOf, h1, h2, h3]
                · simp only [if_neg hthink, if_neg htext, if_neg hjson] at h
                  cases h
                  simp [thinkContrib, textContrib, deltaObjOf, h1, h2, h3,
                    hthink, htext, hjson]
          · simp only [h3] at h
            cases h
            simp [thinkContrib, textContrib, deltaObjOf, h1, h2, h3]
          · simp only [h3] at h
            cases h
            simp [thinkContrib, textContrib, deltaObjOf, h1, h2, h3]
      · simp only [sseStep, h1, if_neg ht] at h
        cases h
        simp [thinkContrib, textContrib, deltaObjOf, h1, ht]
    · simp only [sseStep, h1] at h
      cases h
      simp [thinkContrib, textContrib, deltaObjOf, h1]
    · simp only [sseStep, h1] at h
      cases h
      simp [thinkContrib, textContrib, deltaObjOf, h1]

/-- The `text_delta` contributions of an input, in arrival order. -/
def textContribs (ls : List String) : List JVal :=
  ls.filterMap (fun l => (dataOfLine l).bind textContrib)

/-- The `thinking_delta` contributions of an input, in arrival order. -/
def thinkContribs (ls : List String) : List JVal :=
  ls.filterMap (fun l => (dataOfLine l).bind thinkContrib)

lemma error_bind {α β : Type} (e : PyErr) (f : α → Except PyErr β) :
    (Except.error e >>= f) = .error e := rfl

lemma fold_parts (ls : List String) (acc acc2 : SSEAcc)
    (h : List.foldlM sseLineStep acc ls = .ok acc2) :
    acc2.thinkingParts = acc.thinkingParts ++ thinkContribs ls ∧
    acc2.textParts = acc.textParts ++ textContribs ls := by
  induction ls generalizing acc with
  | nil =>
    have h2 : Except.ok acc = Except.ok acc2 := h
    cases h2
    simp [thinkContribs, textContribs]
  | cons l rest ih =>
    simp only [List.foldlM_cons] at h
    cases hs : sseLineStep acc l with
    | error e =>
      rw [hs, error_bind] at h
      exact Except.noConfusion h
    | ok a =>
      rw [hs, ok_bind] at h
      obtain ⟨iht, ihx⟩ := ih a h
      unfold sseLineStep at hs
      cases hd : dataOfLine l with
      | none =>
        rw [hd] at hs
        have : acc = a := by cases hs; rfl
        subst this
        constructor
        · rw [iht]
          simp [thinkContribs, List.filterMap_cons, hd]
        · rw [ihx]
          simp [textContribs, List.filterMap_cons, hd]
      | some d =>
        rw [hd] at hs
        obtain ⟨st, sx⟩ := sseStep_parts acc d a hs
        constructor
        · rw [iht, st]
          simp only [thinkContribs, List.filterMap_cons, hd, Option.some_bind]
          cases h6 : thinkContrib d <;> simp [h6]
        · rw [ihx, sx]
          simp only [textContribs, List.filterMap_cons, hd, Option.some_bind]
          cases h6 : textContrib d <;> simp [h6]

lemma extract_parts (content : String) (r : SSERec)
    (h : extract_sse_to_json content = .ok r) :
    pyJoin (thinkContribs (splitlines content)) = .ok r.thinking ∧
    pyJoin (textContribs (splitlines content)) = .ok r.text := by
  unfold extract_sse_to_json extractFromLines at h
  rcases hf : List.foldlM sseLineStep ⟨[], [], []⟩ (splitlines content) with e | acc
  · simp only [hf] at h
    exact Except.noConfusion h
  · simp only [hf] at h
    obtain ⟨pt, px⟩ := fold_parts (splitlines content) ⟨[], [], []⟩ acc hf
    rcases h1 : pyJoin acc.thinkingParts with e | tk
    · simp only [h1] at h
      exact Except.noConfusion h
    · simp only [h1] at h
      rcases h2 : pyJoin acc.textParts with e | tx
      · simp only [h2] at h
        exact Except.noConfusion h
      · simp only [h2] at h
        cases h
        rw [pt] at h1
        rw [px] at h2
        simpa using ⟨h1, h2⟩

/-- C6: channel isolation.  The `text` field depends only on the
`text_delta` contributions of the input and the `thinking` field only on
the `thinking_delta` contributions: two inputs with equal `text_delta`
projections have equal `text` (so `thinking_delta` fragments never leak
into `text`), and symmetrically for `thinking`, regardless of shared
`index` values. -/
theorem claim6_channel_isolation :
    (∀ (c1 c2 : String) (r1 r2 : SSERec),
      extract_sse_to_json c1 = .ok r1 → extract_sse_to_json c2 = .ok r2 →
      textContribs (splitlines c1) = textContribs (splitlines c2) →
      r1.text = r2.text) ∧
    (∀ (c1 c2 : String) (r1 r2 : SSERec),
      extract_sse_to_json c1 = .ok r1 → extract_sse_to_json c2 = .ok r2 →
      thinkContribs (splitlines c1) = thinkContribs (splitlines c2) →
      r1.thinking = r2.thinking) := by
  constructor
  · intro c1 c2 r1 r2 h1 h2 hproj
    have p1 := (extract_parts c1 r1 h1).2
    have p2 := (extract_parts c2 r2 h2).2
    rw [hproj] at p1
    rw [p1] at p2
    exact (Except.ok.injEq _ _).mp p2
  · intro c1 c2 r1 r2 h1 h2 hproj
    have p1 := (extract_parts c1 r1 h1).1
    have p2 := (extract_parts c2 r2 h2).1
    rw [hproj] at p1
    rw [p1] at p2
    exact (Except.ok.injEq _ _).mp p2

theorem claim6_witness :
    extract_sse_to_json
      "data: \x7b\"type\":\"content_block_delta\",\"index\":0,\"delta\":\x7b\"type\":\"thinking_delta\",\"thinking\":\"ponder\"\x7d\x7d\ndata: \x7b\"type\":\"content_block_delta\",\"index\":0,\"delta\":\x7b\"type\":\"text_delta\",\"text\":\"ok\"\x7d\x7d" =
      .ok ⟨.arr [], "ponder", "ok", []⟩ ∧
    extract_sse_to_json
      "data: \x7b\"type\":\"content_block_delta\",\"index\":0,\"delta\":\x7b\"type\":\"text_delta\",\"text\":\"ok\"\x7d\x7d" =
      .ok ⟨.arr [], "", "ok", []⟩ ∧
    SSERec.text ⟨.arr [], "ponder", "ok", []⟩ = SSERec.text ⟨.arr [], "", "ok", []⟩ :=
  ⟨rfl, rfl, by
    have hc1 : textContribs (splitlines
        "data: \x7b\"type\":\"content_block_delta\",\"index\":0,\"delta\":\x7b\"type\":\"thinking_delta\",\"thinking\":\"ponder\"\x7d\x7d\ndata: \x7b\"type\":\"content_block_delta\",\"index\":0,\"delta\":\x7b\"type\":\"text_delta\",\"text\":\"ok\"\x7d\x7d") =
        [JVal.str "ok"] := rfl
    have hc2 : textContribs (splitlines
        "data: \x7b\"type\":\"content_block_delta\",\"index\":0,\"delta\":\x7b\"type\":\"text_delta\",\"text\":\"ok\"\x7d\x7d") =
        [JVal.str "ok"] := rfl
    exact claim6_channel_isolation.1
      "data: \x7b\"type\":\"content_block_delta\",\"index\":0,\"delta\":\x7b\"type\":\"thinking_delta\",\"thinking\":\"ponder\"\x7d\x7d\ndata: \x7b\"type\":\"content_block_delta\",\"index\":0,\"delta\":\x7b\"type\":\"text_delta\",\"text\":\"ok\"\x7d\x7d"
      "data: \x7b\"type\":\"content_block_delta\",\"index\":0,\"delta\":\x7b\"type\":\"text_delta\",\"text\":\"ok\"\x7d\x7d"
      ⟨.arr [], "ponder", "ok", []⟩ ⟨.arr [], "", "ok", []⟩ rfl rfl
      (hc1.trans hc2.symm)⟩

/-! ### Exception behaviour of the consolidators (C1) -/

/-- C1 counterexample: a syntactically valid `data:` line whose
`thinking` value is the number `5` makes `extract_sse_to_json` raise
`TypeError` at `"".join`, and an entry whose `text` value is a number
makes `consolidate_deltas` raise `TypeError` at `content += ...`; neither
degrades to empty or partial fields. -/
theorem claim1_counterexample :
    extract_sse_to_json
      "data: \x7b\"type\": \"content_block_delta\", \"index\": 0, \"delta\": \x7b\"type\": \"thinking_delta\", \"thinking\": 5\x7d\x7d" =
      .error .typeError ∧
    consolidate_deltas
      [.obj [("index", .num 0),
             ("delta", .obj [("type", .str "text_delta"), ("text", .num 3)])]] =
      .error .typeError := ⟨rfl, rfl⟩

/-- Whether a JSON value is a string. -/
def isStrVal : JVal → Bool
  | .str _ => true
  | _ => false

/-- Whether a JSON value is a number. -/
def isNumVal : JVal → Bool
  | .num _ => true
  | _ => false

/-- The field typing a delta object needs so that the string
concatenations of the consolidators cannot raise: its `thinking` or
`text` value is a string whenever its type selects that channel. -/
def deltaOK (ds : List (String × JVal)) : Bool :=
  match objGetD ds "type" .null with
  | .str dt =>
    (if dt = "thinking_delta" then isStrVal (objGetD ds "thinking" (.str ""))
     else true) &&
    (if dt = "text_delta" then isStrVal (objGetD ds "text" (.str ""))
     else true)
  | _ => true

/-- The shape `extract_sse_to_json` needs of one parsed `data:` body in
order not to raise: the body is an object, and when it is a
`content_block_delta` its `delta` value is a well-typed object. -/
def frameOK (d : JVal) : Bool :=
  match d with
  | .obj fs =>
    match objGetD fs "type" .null with
    | .str t =>
      if t = "content_block_delta" then
        match objGetD fs "delta" (.obj []) with
        | .obj ds => deltaOK ds
        | _ => false
      else true
    | _ => true
  | _ => false

/-- The shape the whole input must have for `extract_sse_to_json` not to
raise: every line that classifies as a `data:` frame parses to a
well-shaped body. -/
def sseContentOK (content : String) : Bool :=
  (splitlines content).all (fun l =>
    match dataOfLine l with
    | some d => frameOK d
    | none => true)

lemma sseStep_ok_of_frameOK (acc : SSEAcc) (d : JVal) (h : frameOK d = true) :
    ∃ acc2, sseStep acc d = .ok acc2 := by
  cases d with
  | null => simp [frameOK] at h
  | bool b => simp [frameOK] at h
  | num n => simp [frameOK] at h
  | str s => simp [frameOK] at h
  | arr xs => simp [frameOK] at h
  | obj fs =>
    rcases h1 : objGetD fs "type" JVal.null with _ | b | n | t | xs | gs
    · exact ⟨_, by simp only [sseStep, h1]; rfl⟩
    · exact ⟨_, by simp only [sseStep, h1]; rfl⟩
    · exact ⟨_, by simp only [sseStep, h1]; rfl⟩
    · by_cases ht : t = "content_block_delta"
      · subst ht
        rcases h2 : objGetD fs "delta" (JVal.obj []) with _ | b2 | n2 | t2 | xs2 | ds
        · simp [frameOK, h1, h2] at h
        · simp [frameOK, h1, h2] at h
        · simp [frameOK, h1, h2] at h
        · simp [frameOK, h1, h2] at h
        · simp [frameOK, h1, h2] at h
        · rcases h3 : objGetD ds "type" JVal.null with _ | b3 | n3 | t3 | xs3 | gs3
          · exact ⟨_, by simp only [sseStep, h1, if_pos rfl, h2, h3]; rfl⟩
          · exact ⟨_, by simp only [sseStep, h1, if_pos rfl, h2, h3]; rfl⟩
          · exact ⟨_, by simp only [sseStep, h1, if_pos rfl, h2, h3]; rfl⟩
          · exact ⟨_, by simp only [sseStep, h1, if_pos rfl, h2, h3]; rfl⟩
          · exact ⟨_, by simp only [sseStep, h1, if_pos rfl, h2, h3]; rfl⟩
          · exact ⟨_, by simp only [sseStep, h1, if_pos rfl, h2, h3]; rfl⟩
      · exact ⟨_, by simp only [sseStep, h1, if_neg ht]; rfl⟩
    · exact ⟨_, by simp only [sseStep, h1]; rfl⟩
    · exact ⟨_, by simp only [sseStep, h1]; rfl⟩

lemma frameOK_deltaOK (d : JVal) (ds : List (String × JVal))
    (hf : frameOK d = true) (hdo : deltaObjOf d = some ds) : deltaOK ds = true := by
  cases d with
  | null => simp [deltaObjOf] at hdo
  | bool b => simp [deltaObjOf] at hdo
  | num n => simp [deltaObjOf] at hdo
  | str s => simp [deltaObjOf] at hdo
  | arr xs => simp [deltaObjOf] at hdo
  | obj fs =>
    unfold deltaObjOf at hdo
    rcases h1 : objGetD fs "type" JVal.null with _ | b | n | t | xs | gs
    · simp only [h1] at hdo
      exact Option.noConfusion hdo
    · simp only [h1] at hdo
      exact Option.noConfusion hdo
    · simp only [h1] at hdo
      exact Option.noConfusion hdo
    · by_cases ht : t = "content_block_delta"
      · subst ht
        rcases h2 : objGetD fs "delta" (JVal.obj []) with _ | b2 | n2 | t2 | xs2 | ds2
        · simp [h1, h2] at hdo
        · simp [h1, h2] at hdo
        · simp [h1, h2] at hdo
        · simp [h1, h2] at hdo
        · simp [h1, h2] at hdo
        · simp only [h1, h2] at hdo
          simp at hdo
          subst hdo
          unfold frameOK at hf
          simp only [h1, h2] at hf
          simpa using hf
      · simp only [h1, if_neg ht] at hdo
        exact Option.noConfusion hdo
    · simp only [h1] at hdo
      exact Option.noConfusion hdo
    · simp only [h1] at hdo
      exact Option.noConfusion hdo

lemma thinkContrib_str (d v : JVal) (hf : frameOK d = true)
    (hc : thinkContrib d = some v) : isStrVal v = true := by
  unfold thinkContrib at hc
  cases hdo : deltaObjOf d with
  | none => rw [hdo] at hc; exact Option.noConfusion hc
  | some ds =>
    rw [hdo] at hc
    have hok := frameOK_deltaOK d ds hf hdo
    unfold deltaOK at hok
    rcases h3 : objGetD ds "type" JVal.null with _ | b3 | n3 | dt | xs3 | gs3
    · simp only [h3] at hc
      exact Option.noConfusion hc
    · simp only [h3] at hc
      exact Option.noConfusion hc
    · simp only [h3] at hc
      exact Option.noConfusion hc
    · simp only [h3] at hc hok
      by_cases hdt : dt = "thinking_delta"
      · subst hdt
        rw [if_pos rfl] at hc
        rw [Bool.and_eq_true_iff] at hok
        have := hok.1
        rw [if_pos rfl] at this
        cases hc
        exact this
      · rw [if_neg hdt] at hc
        exact Option.noConfusion hc
    · simp only [h3] at hc
      exact Option.noConfusion hc
    · simp only [h3] at hc
      exact Option.noConfusion hc

lemma textContrib_str (d v : JVal) (hf : frameOK d = true)
    (hc : textContrib d = some v) : isStrVal v = true := by
  unfold textContrib at hc
  cases hdo : deltaObjOf d with
  | none => rw [hdo] at hc; exact Option.noConfusion hc
  | some ds =>
    rw [hdo] at hc
    have hok := frameOK_deltaOK d ds hf hdo
    unfold deltaOK at hok
    rcases h3 : objGetD ds "type" JVal.null with _ | b3 | n3 | dt | xs3 | gs3
    · simp only [h3] at hc
      exact Option.noConfusion hc
    · simp only [h3] at hc
      exact Option.noConfusion hc
    · simp only [h3] at hc
      exact Option.noConfusion hc
    · simp only [h3] at hc hok
      by_cases hdt : dt = "text_delta"
      · subst hdt
        rw [if_pos rfl] at hc
        rw [Bool.and_eq_true_iff] at hok
        have := hok.2
        rw [if_pos rfl] at this
        cases hc
        exact this
      · rw [if_neg hdt] at hc
        exact Option.noConfusion hc
    · simp only [h3] at hc
      exact Option.noConfusion hc
    · simp only [h3] at hc
      exact Option.noConfusion hc

lemma pyJoin_ok_of_all (l : List JVal) (h : l.all isStrVal = true) :
    ∃ s, pyJoin l = .ok s := by
  induction l with
  | nil => exact ⟨"", rfl⟩
  | cons v rest ih =>
    rw [List.all_cons, Bool.and_eq_true_iff] at h
    obtain ⟨s, hs⟩ := ih h.2
    cases v with
    | str t =>
      refine ⟨t ++ s, ?_⟩
      simp only [pyJoin, hs]
      rfl
    | null => simp [isStrVal] at h
    | bool b => simp [isStrVal] at h
    | num n => simp [isStrVal] at h
    | arr xs => simp [isStrVal] at h
    | obj gs => simp [isStrVal] at h

lemma fold_ok_of_frames (ls : List String) (acc : SSEAcc)
    (hls : ∀ l ∈ ls, ∀ d, dataOfLine l = some d → frameOK d = true)
    (ht : acc.thinkingParts.all isStrVal = true)
    (hx : acc.textParts.all isStrVal = true) :
    ∃ acc2, List.foldlM sseLineStep acc ls = .ok acc2 ∧
      acc2.thinkingParts.all isStrVal = true ∧
      acc2.textParts.all isStrVal = true := by
  induction ls generalizing acc with
  | nil => exact ⟨acc, rfl, ht, hx⟩
  | cons l rest ih =>
    cases hd : dataOfLine l with
    | none =>
      have hstep : sseLineStep acc l = .ok acc := by
        unfold sseLineStep
        rw [hd]
      obtain ⟨acc2, hrest, h2, h3⟩ := ih acc
        (fun x hx2 d hd2 => hls x (List.mem_cons_of_mem l hx2) d hd2) ht hx
      exact ⟨acc2, by simp only [List.foldlM_cons, hstep, ok_bind, hrest], h2, h3⟩
    | some d =>
      have hfr := hls l (List.mem_cons_self l rest) d hd
      obtain ⟨a, ha⟩ := sseStep_ok_of_frameOK acc d hfr
      obtain ⟨pt, px⟩ := sseStep_parts acc d a ha
      have hstep : sseLineStep acc l = .ok a := by
        unfold sseLineStep
        rw [hd]
        exact ha
      have ht2 : a.thinkingParts.all isStrVal = true := by
        rw [pt, List.all_append, Bool.and_eq_true_iff]
        refine ⟨ht, ?_⟩
        cases hc : thinkContrib d with
        | none => simp
        | some v =>
          simp only [Option.toList_some, List.all_cons, List.all_nil, Bool.and_true]
          exact thinkContrib_str d v hfr hc
      have hx2 : a.textParts.all isStrVal = true := by
        rw [px, List.all_append, Bool.and_eq_true_iff]
        refine ⟨hx, ?_⟩
        cases hc : textContrib d with
        | none => simp
        | some v =>
          simp only [Option.toList_some, List.all_cons, List.all_nil, Bool.and_true]
          exact textContrib_str d v hfr hc
      obtain ⟨acc2, hrest, h2, h3⟩ := ih a
        (fun x hx3 d2 hd2 => hls x (List.mem_cons_of_mem l hx3) d2 hd2) ht2 hx2
      exact ⟨acc2, by simp only [List.foldlM_cons, hstep, ok_bind, hrest], h2, h3⟩

/-- Field typing of one delta under its group type `t`. -/
def deltaFieldsOK (t : String) (d : JVal) : Bool :=
  match d with
  | .obj ds =>
    (if t = "thinking_delta" then isStrVal (objGetD ds "thinking" (.str ""))
     else true) &&
    (if t = "text_delta" then isStrVal (objGetD ds "text" (.str ""))
     else true)
  | _ => false

/-- The shape `consolidate_deltas` needs of one entry in order not to
raise: an object whose `delta` is an object, whose `index` is a number,
and whose delta type is absent or a string with well-typed channel
fields. -/
def entryOK (e : JVal) : Bool :=
  match e with
  | .obj fs =>
    match objGetD fs "delta" (.obj []) with
    | .obj ds =>
      isNumVal (objGetD fs "index" (.num 0)) &&
      (match objGetD ds "type" .null with
       | .null => true
       | .str dt => deltaFieldsOK dt (.obj ds)
       | _ => false)
    | _ => false
  | _ => false

/-- Invariant of the grouping state: string-typed keys with numeric
indices and well-typed member deltas. -/
def groupOK (g : (JVal × JVal) × List JVal) : Bool :=
  match g.1.1, g.1.2 with
  | .str t, .num _ => g.2.all (deltaFieldsOK t)
  | _, _ => false

lemma groupOK_shape (g : (JVal × JVal) × List JVal) (h : groupOK g = true) :
    ∃ t n, g.1 = (JVal.str t, JVal.num n) ∧ g.2.all (deltaFieldsOK t) = true := by
  obtain ⟨⟨k1, k2⟩, ds⟩ := g
  cases k1 <;> cases k2 <;> simp [groupOK] at h ⊢
  exact h

lemma pyEqScalar_str_eq (a b : String) (h : pyEqScalar (.str a) (.str b) = true) :
    a = b := by
  simpa [pyEqScalar] using h

lemma isNumVal_shape (v : JVal) (h : isNumVal v = true) : ∃ n, v = .num n := by
  cases v <;> simp [isNumVal] at h
  exact ⟨_, rfl⟩

lemma groupAdd_OK (gs : Groups) (dt : String) (n : Int) (d : JVal)
    (hgs : ∀ g ∈ gs, groupOK g = true)
    (hd : deltaFieldsOK dt d = true) :
    ∀ g ∈ groupAdd gs (.str dt, .num n) d, groupOK g = true := by
  induction gs with
  | nil =>
    intro g hg
    rcases List.mem_singleton.mp hg with rfl
    simp [groupOK, hd]
  | cons y ys ih =>
    obtain ⟨t1, n1, hk1, hall1⟩ := groupOK_shape y (hgs y (List.mem_cons_self y ys))
    intro g hg
    unfold groupAdd at hg
    by_cases hke : keyEq y.1 (.str dt, .num n) = true
    · rw [if_pos hke] at hg
      rcases List.mem_cons.mp hg with rfl | hmem
      · have ht : t1 = dt := by
          rw [hk1] at hke
          unfold keyEq at hke
          rw [Bool.and_eq_true_iff] at hke
          exact pyEqScalar_str_eq t1 dt hke.1
        unfold groupOK
        rw [hk1]
        simp only [List.all_append, Bool.and_eq_true_iff]
        exact ⟨hall1, by simp [ht, hd]⟩
      · exact hgs g (List.mem_cons_of_mem y hmem)
    · rw [if_neg hke] at hg
      rcases List.mem_cons.mp hg with rfl | hmem
      · exact hgs _ (List.mem_cons_self _ _)
      · exact ih (fun x hx => hgs x (List.mem_cons_of_mem y hx)) g hmem

lemma buildGroups_ok (es : List JVal) (gs : Groups)
    (hes : ∀ e ∈ es, entryOK e = true) (hgs : ∀ g ∈ gs, groupOK g = true) :
    ∃ gs2, buildGroups es gs = .ok gs2 ∧ ∀ g ∈ gs2, groupOK g = true := by
  induction es generalizing gs with
  | nil => exact ⟨gs, rfl, hgs⟩
  | cons e rest ih =>
    have he := hes e (List.mem_cons_self e rest)
    have hrest : ∀ x ∈ rest, entryOK x = true :=
      fun x hx => hes x (List.mem_cons_of_mem e hx)
    cases e with
    | null => simp [entryOK] at he
    | bool b => simp [entryOK] at he
    | num n => simp [entryOK] at he
    | str s => simp [entryOK] at he
    | arr xs => simp [entryOK] at he
    | obj fs =>
      rcases h2 : objGetD fs "delta" (JVal.obj []) with _ | b2 | n2 | t2 | xs2 | ds
      · simp [entryOK, h2] at he
      · simp [entryOK, h2] at he
      · simp [entryOK, h2] at he
      · simp [entryOK, h2] at he
      · simp [entryOK, h2] at he
      · unfold entryOK at he
        simp only [h2, Bool.and_eq_true_iff] at he
        obtain ⟨m, hm⟩ := isNumVal_shape _ he.1
        rcases h3 : objGetD ds "type" JVal.null with _ | b3 | n3 | dt | xs3 | gs3
        · have hstep : buildGroups (JVal.obj fs :: rest) gs = buildGroups rest gs := by
            simp [buildGroups, h2, h3]
          rw [hstep]
          exact ih gs hrest hgs
        · rw [h3] at he
          simp at he
        · rw [h3] at he
          simp at he
        · rw [h3] at he
          have hstep : buildGroups (JVal.obj fs :: rest) gs =
              buildGroups rest (groupAdd gs (.str dt, .num m) (.obj ds)) := by
            simp [buildGroups, h2, h3, hm, pyHashable]
          rw [hstep]
          exact ih _ hrest (groupAdd_OK gs dt m (.obj ds) hgs he.2)
        · rw [h3] at he
          simp at he
        · rw [h3] at he
          simp at he

lemma keyLt_ok (t1 t2 : String) (n1 n2 : Int) :
    ∃ r, keyLt (.str t1, .num n1) (.str t2, .num n2) = .ok r := by
  simp only [keyLt]
  by_cases he : pyEqScalar (.str t1) (.str t2) = true
  · rw [if_pos he]
    by_cases he2 : pyEqScalar (.num n1) (.num n2) = true
    · rw [if_pos he2]
      exact ⟨false, rfl⟩
    · rw [if_neg he2]
      exact ⟨_, rfl⟩
  · rw [if_neg he]
    exact ⟨_, rfl⟩

lemma insertDescM_ok (x : (JVal × JVal) × List JVal) (l : Groups)
    (hx : groupOK x = true) (hl : ∀ y ∈ l, groupOK y = true) :
    ∃ l2, insertDescM x l = .ok l2 ∧ ∀ y ∈ l2, groupOK y = true := by
  induction l with
  | nil =>
    refine ⟨[x], rfl, ?_⟩
    intro y hy
    rcases List.mem_singleton.mp hy with rfl
    exact hx
  | cons yy ys ih =>
    obtain ⟨t1, n1, hk1, _⟩ := groupOK_shape yy (hl yy (List.mem_cons_self yy ys))
    obtain ⟨t2, n2, hk2, _⟩ := groupOK_shape x hx
    obtain ⟨r, hr⟩ := keyLt_ok t1 t2 n1 n2
    have hr2 : keyLt yy.1 x.1 = .ok r := by rw [hk1, hk2]; exact hr
    unfold insertDescM
    rw [hr2]
    cases r with
    | true =>
      refine ⟨x :: yy :: ys, rfl, ?_⟩
      intro y hy
      rcases List.mem_cons.mp hy with rfl | hy2
      · exact hx
      · exact hl y hy2
    | false =>
      obtain ⟨l2, hl2, hall⟩ := ih (fun z hz => hl z (List.mem_cons_of_mem yy hz))
      rw [hl2]
      refine ⟨yy :: l2, rfl, ?_⟩
      intro y hy
      rcases List.mem_cons.mp hy with rfl | hy2
      · exact hl _ (List.mem_cons_self _ _)
      · exact hall y hy2

lemma sortDescM_ok (l : Groups) (hl : ∀ y ∈ l, groupOK y = true) :
    ∃ l2, sortDescM l = .ok l2 ∧ ∀ y ∈ l2, groupOK y = true := by
  induction l with
  | nil => exact ⟨[], rfl, fun y hy => absurd hy (List.not_mem_nil y)⟩
  | cons x xs ih =>
    obtain ⟨s, hs, halls⟩ := ih (fun z hz => hl z (List.mem_cons_of_mem x hz))
    obtain ⟨l2, hl2, hall⟩ :=
      insertDescM_ok x s (hl x (List.mem_cons_self x xs)) halls
    refine ⟨l2, ?_, hall⟩
    unfold sortDescM
    rw [hs]
    exact hl2

lemma concatField_ok (ds : List JVal) (f : String)
    (h : ∀ d ∈ ds, ∃ ds2, d = JVal.obj ds2 ∧
      isStrVal (objGetD ds2 f (.str "")) = true) :
    ∃ s, concatField ds f = .ok s := by
  induction ds with
  | nil => exact ⟨"", rfl⟩
  | cons d rest ih =>
    obtain ⟨ds2, rfl, hstr⟩ := h d (List.mem_cons_self d rest)
    obtain ⟨v, hv⟩ : ∃ v, objGetD ds2 f (.str "") = .str v := by
      rcases hval : objGetD ds2 f (.str "") with _ | b | n | s | xs | gs <;>
        rw [hval] at hstr <;> simp [isStrVal] at hstr
      exact ⟨_, rfl⟩
    obtain ⟨s, hs⟩ := ih (fun z hz => h z (List.mem_cons_of_mem _ hz))
    refine ⟨v ++ s, ?_⟩
    simp only [concatField, hv, hs]
    rfl

lemma emitGroup_ok (g : (JVal × JVal) × List JVal) (h : groupOK g = true) :
    ∃ es, emitGroup g.1 g.2 = .ok es := by
  obtain ⟨t, n, hk, hall⟩ := groupOK_shape g h
  have hEq : emitGroup (JVal.str t, JVal.num n) g.2 =
      (if t = "text_delta" then
        (concatField g.2 "text").map (fun c => [CEntry.text c])
       else if t = "thinking_delta" then
        (concatField g.2 "thinking").map (fun c => [CEntry.thinking c])
       else if t = "input_json_delta" then .ok (g.2.map .toolUse)
       else .ok []) := rfl
  rw [hk, hEq]
  by_cases ht : t = "text_delta"
  · subst ht
    have hfields : ∀ d ∈ g.2, ∃ ds2, d = JVal.obj ds2 ∧
        isStrVal (objGetD ds2 "text" (.str "")) = true := by
      intro d hd
      have := (List.all_eq_true.mp hall) d hd
      cases d with
      | obj ds2 =>
        refine ⟨ds2, rfl, ?_⟩
        simpa [deltaFieldsOK] using this
      | null => simp [deltaFieldsOK] at this
      | bool b => simp [deltaFieldsOK] at this
      | num n2 => simp [deltaFieldsOK] at this
      | str s => simp [deltaFieldsOK] at this
      | arr xs => simp [deltaFieldsOK] at this
    obtain ⟨s, hs⟩ := concatField_ok g.2 "text" hfields
    refine ⟨[.text s], ?_⟩
    rw [if_pos rfl, hs]
    rfl
  · by_cases hh : t = "thinking_delta"
    · subst hh
      have hfields : ∀ d ∈ g.2, ∃ ds2, d = JVal.obj ds2 ∧
          isStrVal (objGetD ds2 "thinking" (.str "")) = true := by
        intro d hd
        have := (List.all_eq_true.mp hall) d hd
        cases d with
        | obj ds2 =>
          refine ⟨ds2, rfl, ?_⟩
          simpa [deltaFieldsOK] using this
        | null => simp [deltaFieldsOK] at this
        | bool b => simp [deltaFieldsOK] at this
        | num n2 => simp [deltaFieldsOK] at this
        | str s => simp [deltaFieldsOK] at this
        | arr xs => simp [deltaFieldsOK] at this
      obtain ⟨s, hs⟩ := concatField_ok g.2 "thinking" hfields
      refine ⟨[.thinking s], ?_⟩
      rw [if_neg ht, if_pos rfl, hs]
      rfl
    · by_cases hj : t = "input_json_delta"
      · subst hj
        exact ⟨g.2.map .toolUse, by rw [if_neg ht, if_neg hh, if_pos rfl]⟩
      · exact ⟨[], by rw [if_neg ht, if_neg hh, if_neg hj]⟩

lemma emitAll_ok (l : Groups) (hl : ∀ y ∈ l, groupOK y = true) :
    ∃ es, emitAll l = .ok es := by
  induction l with
  | nil => exact ⟨[], rfl⟩
  | cons g rest ih =>
    obtain ⟨e1, he1⟩ := emitGroup_ok g (hl g (List.mem_cons_self g rest))
    obtain ⟨e2, he2⟩ := ih (fun z hz => hl z (List.mem_cons_of_mem g hz))
    refine ⟨e1 ++ e2, ?_⟩
    unfold emitAll
    rw [he1, he2]

/-- C1 (amended): the consolidators cannot raise on JSON noise, missing
keys or unparseable `partial_json`, but exceptions are reachable through
type-malformed JSON; they are excluded exactly when the parsed bodies are
well-shaped.  `extract_sse_to_json` returns a record whenever every
parsed `data:` body is an object whose `delta` is an object with
string-typed `thinking`/`text` for those channels, and
`consolidate_deltas` returns a result whenever every entry is an object
with an object `delta`, a numeric `index`, and an absent-or-string delta
type with the same field typing. -/
theorem claim1_graceful_on_wellformed :
    (∀ content : String, sseContentOK content = true →
      ∃ r, extract_sse_to_json content = .ok r) ∧
    (∀ entries : List JVal, entries.all entryOK = true →
      ∃ out, consolidate_deltas entries = .ok out) := by
  constructor
  · intro content h
    have hls : ∀ l ∈ splitlines content, ∀ d, dataOfLine l = some d →
        frameOK d = true := by
      intro l hl d hd
      have := (List.all_eq_true.mp h) l hl
      rw [hd] at this
      exact this
    obtain ⟨acc2, hfold, ht, hx⟩ :=
      fold_ok_of_frames (splitlines content) ⟨[], [], []⟩ hls rfl rfl
    obtain ⟨tk, htk⟩ := pyJoin_ok_of_all _ ht
    obtain ⟨tx, htx⟩ := pyJoin_ok_of_all _ hx
    refine ⟨⟨emftLines (splitlines content), tk, tx, acc2.toolUses⟩, ?_⟩
    unfold extract_sse_to_json
    exact extractFromLines_ok _ acc2 tk tx hfold htk htx
  · intro entries h
    have hes : ∀ e ∈ entries, entryOK e = true := List.all_eq_true.mp h
    obtain ⟨gs, hgs, hallg⟩ := buildGroups_ok entries [] hes
      (fun g hg => absurd hg (List.not_mem_nil g))
    obtain ⟨l2, hl2, hall2⟩ := sortDescM_ok gs hallg
    obtain ⟨es, hes2⟩ := emitAll_ok l2 hall2
    refine ⟨es, ?_⟩
    unfold consolidate_deltas
    simp only [hgs, hl2]
    exact hes2

theorem claim1_witness :
    (∃ r, extract_sse_to_json
      "data: \x7b\"type\":\"content_block_delta\",\"index\":0,\"delta\":\x7b\"type\":\"thinking_delta\",\"thinking\":\"hm\"\x7d\x7d\nnot json at all\ndata: also not json" =
      .ok r) ∧
    (∃ out, consolidate_deltas
      [.obj [("index", .num 0),
             ("delta", .obj [("type", .str "text_delta"), ("text", .str "hi")])]] =
      .ok out) :=
  ⟨claim1_graceful_on_wellformed.1
    "data: \x7b\"type\":\"content_block_delta\",\"index\":0,\"delta\":\x7b\"type\":\"thinking_delta\",\"thinking\":\"hm\"\x7d\x7d\nnot json at all\ndata: also not json"
    rfl,
   claim1_graceful_on_wellformed.2
    [.obj [("index", .num 0),
           ("delta", .obj [("type", .str "text_delta"), ("text", .str "hi")])]]
    rfl⟩
